import Mathlib

/-! capture-go: canonical query serialisation, token derivation and URL assembly

A shallow embedding of `capture.go` (package `capture`) and of `parseOptions` in
`internal/cli/output.go` (package `cli`).

* Go strings are byte sequences: `GoString = List Byte`, `Byte = Fin 256`.
* A Go `map[string]T` is an association list whose list order stands for the
  (unspecified) order in which `range` visits the entries; a well-formed map has
  pairwise distinct keys (`NodupKeys`).
* Functions of the Go standard library that the package calls are modelled next to
  their callers (`QueryEscape`, `SortStrings`, `Join`, `Itoa`, `FormatBool`,
  `EncodeToString`); the two that are numerically heavy (`md5.Sum` and
  `strconv.FormatFloat`) are taken as the fields of a `Stdlib` record, the result of
  `strconv.ParseFloat` on strings that can be numbers as the field of `Strconv`.
-/

namespace CaptureGo

/-! ## Strings -/

abbrev Byte := Fin 256

abbrev GoString := List Byte

/-- UTF-8 encoding of one code point (Go source literals are UTF-8). -/
def utf8Char (c : Char) : GoString :=
  let n := c.toNat
  if n < 0x80 then [Fin.ofNat n]
  else if n < 0x800 then [Fin.ofNat (0xC0 + n / 64), Fin.ofNat (0x80 + n % 64)]
  else if n < 0x10000 then
    [Fin.ofNat (0xE0 + n / 4096), Fin.ofNat (0x80 + n / 64 % 64), Fin.ofNat (0x80 + n % 64)]
  else
    [Fin.ofNat (0xF0 + n / 262144), Fin.ofNat (0x80 + n / 4096 % 64),
     Fin.ofNat (0x80 + n / 64 % 64), Fin.ofNat (0x80 + n % 64)]

/-- The bytes of a string literal. -/
def str (s : String) : GoString := s.data.flatMap utf8Char

/-- Go's `<` on strings: lexicographic comparison of the bytes. -/
def strLess : GoString → GoString → Bool
  | [], [] => false
  | [], _ :: _ => true
  | _ :: _, [] => false
  | a :: as, b :: bs => a < b || (a == b && strLess as bs)

/-- The order `sort.Strings` sorts into: `a` may stand before `b` unless `b < a`. -/
def strLe (a b : GoString) : Prop := strLess b a = false

instance strLe.decidable : DecidableRel strLe := fun a b =>
  inferInstanceAs (Decidable (strLess b a = false))

/-- Model of `sort.Strings`: the ascending arrangement of the slice. -/
def SortStrings (keys : List GoString) : List GoString := keys.insertionSort strLe

/-- Model of `strings.Join`. -/
def Join : List GoString → GoString → GoString
  | [], _ => []
  | [a], _ => a
  | a :: b :: rest, sep => a ++ sep ++ Join (b :: rest) sep

/-! ## `net/url.QueryEscape` -/

/-- Model of `shouldEscape(c, encodeQueryComponent)` of `net/url`. -/
def shouldEscape (c : Byte) : Bool :=
  if (97 ≤ c.val ∧ c.val ≤ 122) ∨ (65 ≤ c.val ∧ c.val ≤ 90) ∨ (48 ≤ c.val ∧ c.val ≤ 57) then
    false
  else if c.val = 45 ∨ c.val = 95 ∨ c.val = 46 ∨ c.val = 126 then
    false
  else
    true

/-- The constant `upperhex` of `net/url`, indexed by a nibble. -/
def upperhex (n : Nat) : Byte :=
  (str "0123456789ABCDEF").getD n 0

/-- First pass of `escape`: is there a byte that has to be rewritten. -/
def escapeCount : GoString → Nat
  | [] => 0
  | c :: rest => (if shouldEscape c then 1 else 0) + escapeCount rest

/-- Second pass of `escape`: the output buffer, byte by byte. -/
def escapeFill : GoString → GoString
  | [] => []
  | c :: rest =>
    if c.val = 32 then 43 :: escapeFill rest
    else if shouldEscape c then
      37 :: upperhex (c.val / 16) :: upperhex (c.val % 16) :: escapeFill rest
    else c :: escapeFill rest

/-- Model of `url.QueryEscape`: the input is returned as it is when no byte needs
escaping, otherwise it is rewritten byte by byte. -/
def QueryEscape (s : GoString) : GoString :=
  if escapeCount s = 0 then s else escapeFill s

/-! ## `strconv` -/

/-- Decimal digits of a natural number, most significant first. -/
def decimalDigits : Nat → Nat → GoString → GoString
  | 0, _, acc => acc
  | fuel + 1, n, acc =>
    if n / 10 = 0 then Fin.ofNat (48 + n % 10) :: acc
    else decimalDigits fuel (n / 10) (Fin.ofNat (48 + n % 10) :: acc)

/-- Model of `strconv.FormatInt(v, 10)`. -/
def FormatInt (v : Int) : GoString :=
  if v < 0 then 45 :: decimalDigits (v.natAbs + 1) v.natAbs []
  else decimalDigits (v.natAbs + 1) v.natAbs []

/-- Model of `strconv.Itoa`. -/
def Itoa (v : Int) : GoString := FormatInt v

/-- Model of `strconv.FormatBool`. -/
def FormatBool (b : Bool) : GoString := if b then str "true" else str "false"

/-! ## Values, maps and the client -/

/-- A `float64`, kept as its IEEE-754 bit pattern. -/
structure Float64 where
  bits : Nat
  deriving DecidableEq, Repr

/-- The result type `[16]byte` of `md5.Sum`. -/
abbrev Digest := { d : List Byte // d.length = 16 }

/-- The two standard-library functions the model takes as given. -/
structure Stdlib where
  /-- Stands for `md5.Sum`. -/
  md5Sum : GoString → Digest
  /-- Stands for `strconv.FormatFloat(v, 'f', -1, 64)`. -/
  formatFloat : Float64 → GoString

/-- A dynamically typed option value (`interface{}`): `nil`, one of the types the
type switch of `toQueryString` names, or a value of any other type, which is
represented by what `fmt.Sprintf("%v", v)` prints for it. -/
inductive Value
  | nil
  | string (v : GoString)
  | int (v : Int)
  | int64 (v : Int)
  | float64 (v : Float64)
  | bool (v : Bool)
  | other (printed : GoString)
  deriving DecidableEq, Repr

/-- A Go map with string keys, as the list of its entries in iteration order. -/
abbrev GoMap (β : Type) := List (GoString × β)

/-- The entries of a `RequestOptions` map. -/
abbrev OptMap := GoMap Value

/-- The type `RequestOptions`: `none` is the nil map. -/
abbrev RequestOptions := Option OptMap

/-- Keys of a map, in iteration order. -/
def mapKeys {β : Type} (m : GoMap β) : List GoString := m.map Prod.fst

/-- Well-formedness of a map: no key occurs twice. -/
def NodupKeys {β : Type} (m : GoMap β) : Prop := (mapKeys m).Nodup

instance NodupKeys.decidable {β : Type} (m : GoMap β) : Decidable (NodupKeys m) :=
  inferInstanceAs (Decidable (mapKeys m).Nodup)

/-- The assignment `m[k] = v`. -/
def mapSet {β : Type} : GoMap β → GoString → β → GoMap β
  | [], k, v => [(k, v)]
  | (k0, v0) :: rest, k, v =>
    if k0 = k then (k, v) :: rest else (k0, v0) :: mapSet rest k v

/-- The lookup `m[k]` with presence flag. -/
def mapLookup {β : Type} : GoMap β → GoString → Option β
  | [], _ => none
  | (k0, v0) :: rest, k => if k0 = k then some v0 else mapLookup rest k

/-- The read `params[key]` on a `map[string]string`: the zero value when absent. -/
def mapGet (m : GoMap GoString) (k : GoString) : GoString :=
  (mapLookup m k).getD []

/-- The statement `delete(m, k)`. -/
def mapDelete {β : Type} (m : GoMap β) (k : GoString) : GoMap β :=
  m.filter (fun e => decide (e.1 ≠ k))

/-- The struct `Capture`. `Client` is the identity of the `http.Client` object the
struct points to. -/
structure Capture where
  APIURL : GoString
  EdgeURL : GoString
  Key : GoString
  Secret : GoString
  UseEdge : Bool
  Client : Nat
  deriving DecidableEq, Repr

/-- A Go `error`: `none` is nil, `some msg` an error whose message is `msg`. -/
abbrev GoError := Option GoString

/-- The type `RequestType` and its four constants. -/
abbrev RequestType := GoString

def RequestTypeImage : RequestType := str "image"

def RequestTypePDF : RequestType := str "pdf"

def RequestTypeContent : RequestType := str "content"

def RequestTypeMetadata : RequestType := str "metadata"

/-- The functional-option type of the package (`Option` in the source). -/
abbrev ClientOption := Capture → Capture

/-- The identity of the `http.Client` that `New` allocates. -/
def defaultClient : Nat := 0

/-- The option `WithEdge`. -/
def WithEdge : ClientOption := fun c => { c with UseEdge := true }

/-- The option `WithHTTPClient`. -/
def WithHTTPClient (client : Nat) : ClientOption := fun c => { c with Client := client }

/-- The constructor `New`. -/
def New (key secret : GoString) (options : List ClientOption) : Capture :=
  options.foldl (fun c option => option c)
    { APIURL := str "https://cdn.capture.page"
      EdgeURL := str "https://edge.capture.page"
      Key := key
      Secret := secret
      UseEdge := false
      Client := defaultClient }

/-! ## `generateToken` -/

/-- The constant `hextable` of `encoding/hex`, indexed by a nibble. -/
def hextable (n : Nat) : Byte :=
  (str "0123456789abcdef").getD n 0

/-- Model of `hex.EncodeToString`. -/
def EncodeToString : List Byte → GoString
  | [] => []
  | v :: rest => hextable (v.val / 16) :: hextable (v.val % 16) :: EncodeToString rest

/-- The method `generateToken`. -/
def generateToken (L : Stdlib) (_c : Capture) (secret query : GoString) : GoString :=
  EncodeToString (L.md5Sum (secret ++ query)).val

/-! ## `toQueryString` -/

/-- The type switch of `toQueryString` (lines 88-102). -/
def strValue (L : Stdlib) : Value → GoString
  | .string v => v
  | .int v => Itoa v
  | .int64 v => FormatInt v
  | .float64 v => L.formatFloat v
  | .bool v => FormatBool v
  | .nil => str "<nil>"
  | .other printed => printed

/-- One round of the first loop of `toQueryString` (lines 79-105). -/
def paramsStep (L : Stdlib) (params : GoMap GoString) (e : GoString × Value) :
    GoMap GoString :=
  if e.1 = str "format" then params
  else if e.2 = Value.nil ∨ e.2 = Value.string [] then params
  else mapSet params e.1 (strValue L e.2)

/-- The map `params` after the first loop. -/
def buildParams (L : Stdlib) (options : OptMap) : GoMap GoString :=
  options.foldl (paramsStep L) []

/-- The slice `keys` after `sort.Strings` (lines 107-111). -/
def sortedKeys (params : GoMap GoString) : List GoString :=
  SortStrings (mapKeys params)

/-- The slice `queryParts` (lines 113-119). -/
def queryParts (params : GoMap GoString) : List GoString :=
  (sortedKeys params).map
    (fun key => QueryEscape key ++ str "=" ++ QueryEscape (mapGet params key))

/-- The method `toQueryString`. -/
def toQueryString (L : Stdlib) (_c : Capture) (options : RequestOptions) : GoString :=
  match options with
  | none => []
  | some m => Join (queryParts (buildParams L m)) (str "&")


/-! ## `buildURL` and the four builders -/

/-- The copy loop of `buildURL` (lines 133-138): a fresh map that receives every
entry of `options`. -/
def copyOptions (options : RequestOptions) : OptMap :=
  match options with
  | none => []
  | some m => m.foldl (fun requestOptions e => mapSet requestOptions e.1 e.2) []

/-- Lines 141-155 of `buildURL`: serialise, sign and format. -/
def signAndFormat (L : Stdlib) (c : Capture) (requestType : RequestType)
    (requestOptions : OptMap) : GoString × GoError :=
  let query := toQueryString L c (some requestOptions)
  let token := generateToken L c c.Secret query
  let baseURL := if c.UseEdge then c.EdgeURL else c.APIURL
  let finalURL := baseURL ++ str "/" ++ c.Key ++ str "/" ++ token ++ str "/" ++ requestType
  let finalURL := if query ≠ [] then finalURL ++ (str "?" ++ query) else finalURL
  (finalURL, none)

/-- The method `buildURL`, on the contents of the caller's map. -/
def buildURL (L : Stdlib) (c : Capture) (requestType : RequestType) (targetURL : GoString)
    (options : RequestOptions) : GoString × GoError :=
  if c.Key = [] ∨ c.Secret = [] then ([], some (str "key and secret are required"))
  else if targetURL = [] then ([], some (str "url is required"))
  else
    let requestOptions := copyOptions options
    let requestOptions := mapSet requestOptions (str "url") (Value.string targetURL)
    signAndFormat L c requestType requestOptions

def BuildImageURL (L : Stdlib) (c : Capture) (targetURL : GoString)
    (options : RequestOptions) : GoString × GoError :=
  buildURL L c RequestTypeImage targetURL options

def BuildPDFURL (L : Stdlib) (c : Capture) (targetURL : GoString)
    (options : RequestOptions) : GoString × GoError :=
  buildURL L c RequestTypePDF targetURL options

def BuildContentURL (L : Stdlib) (c : Capture) (targetURL : GoString)
    (options : RequestOptions) : GoString × GoError :=
  buildURL L c RequestTypeContent targetURL options

def BuildMetadataURL (L : Stdlib) (c : Capture) (targetURL : GoString)
    (options : RequestOptions) : GoString × GoError :=
  buildURL L c RequestTypeMetadata targetURL options

/-! ## `buildURL` on a store

The same method with the objects it can reach made explicit: the client the
receiver points to and the map objects of the program, a map reference being an
index into `maps` (`none` is the nil map). Every assignment the method performs is
a write to the store. -/

structure Store where
  client : Capture
  maps : List OptMap

/-- The contents of the map a reference points to. -/
def Store.read (s : Store) (ref : Nat) : OptMap := s.maps.getD ref []

/-- The assignment `m[k] = v` through a reference. -/
def Store.assign (s : Store) (ref : Nat) (k : GoString) (v : Value) : Store :=
  { s with maps := s.maps.set ref (mapSet (s.read ref) k v) }

/-- The call `make(RequestOptions)`: a new empty map object and its reference. -/
def Store.make (s : Store) : Nat × Store :=
  (s.maps.length, { s with maps := s.maps ++ [[]] })

/-- The method `buildURL` run on a store: result and store after the call. -/
def runBuildURL (L : Stdlib) (requestType : RequestType) (targetURL : GoString)
    (options : Option Nat) (s : Store) : (GoString × GoError) × Store :=
  if s.client.Key = [] ∨ s.client.Secret = [] then
    (([], some (str "key and secret are required")), s)
  else if targetURL = [] then (([], some (str "url is required")), s)
  else
    let (requestOptions, s1) := s.make
    let s2 := match options with
      | none => s1
      | some ref => (s1.read ref).foldl
        (fun (st : Store) (e : GoString × Value) => st.assign requestOptions e.1 e.2) s1
    let s3 := s2.assign requestOptions (str "url") (Value.string targetURL)
    (signAndFormat L s3.client requestType (s3.read requestOptions), s3)

/-! ## The serialiser as the claims describe it -/

/-- An entry survives the filter of `toQueryString` unless its key is `format` or its
value is nil or the empty string. -/
def survives (e : GoString × Value) : Bool :=
  decide (e.1 ≠ str "format" ∧ e.2 ≠ Value.nil ∧ e.2 ≠ Value.string [])

/-- Entries arranged in ascending order of their keys. -/
def sortByKey {β : Type} (m : GoMap β) : GoMap β :=
  m.insertionSort (fun a b => strLe a.1 b.1)

/-- One rendered pair: escaped key, `=`, escaped canonical string value. -/
def renderPair (L : Stdlib) (e : GoString × Value) : GoString :=
  QueryEscape e.1 ++ str "=" ++ QueryEscape (strValue L e.2)

/-- The bytes query-component escaping leaves unchanged: ASCII letters, digits and
`-`, `_`, `.`, `~`. -/
def unreserved (c : Byte) : Bool :=
  decide (c ∈ str "ABCDEFGHIJKLMNOPQRSTUVWXYZabcdefghijklmnopqrstuvwxyz0123456789-_.~")

/-- Query-component escaping of one byte, as the specification words it. -/
def escapeByte (c : Byte) : GoString :=
  if unreserved c then [c]
  else if c = 32 then str "+"
  else str "%" ++ [(str "0123456789ABCDEF").getD (c.val / 16) 0,
    (str "0123456789ABCDEF").getD (c.val % 16) 0]

/-- A standard library to run the model on sample inputs: a constant digest and a
constant float rendering. Only used to exhibit inputs. -/
def sampleStdlib : Stdlib :=
  { md5Sum := fun _ => ⟨List.replicate 16 0, by decide⟩
    formatFloat := fun _ => str "0" }

/-- The signed URL as the specification describes it: host, key, token and kind
separated by `/`, then `?` and the query when the query is not empty; the query is
the serialisation of the options with `url` set to the target, the token is
derived from the secret and that query. -/
def signedURL (L : Stdlib) (c : Capture) (kind targetURL : GoString) (m : OptMap) : GoString :=
  (if c.UseEdge then c.EdgeURL else c.APIURL) ++ str "/" ++ c.Key ++ str "/" ++
    generateToken L c c.Secret
      (toQueryString L c (some (mapSet m (str "url") (Value.string targetURL)))) ++
    str "/" ++ kind ++
    (if toQueryString L c (some (mapSet m (str "url") (Value.string targetURL))) = [] then []
     else str "?" ++ toQueryString L c (some (mapSet m (str "url") (Value.string targetURL))))

/-! ## The animated request kind -/

/-- Modelled from the spec: the constant `RequestTypeAnimated`. `capture.go` declares
the four kinds above; the specification lists `animated` as the fifth kind and path
segment. -/
def RequestTypeAnimated : RequestType := str "animated"

/-- Modelled from the spec: the builder `BuildAnimatedURL`, which `runAnimated` of the
command line calls and `capture.go` does not define. The specification gives one
builder per request kind, all sharing the single routine `buildURL` and differing in
the kind alone. -/
def BuildAnimatedURL (L : Stdlib) (c : Capture) (targetURL : GoString)
    (options : RequestOptions) : GoString × GoError :=
  buildURL L c RequestTypeAnimated targetURL options

/-! ## `FetchImage` and `FetchPDF` -/

/-- What the package reads of an `http.Response`: the status code and what
`io.ReadAll(resp.Body)` returns. -/
structure Response where
  StatusCode : Int
  Body : List Byte
  ReadErr : GoError

/-- The outcome of `Client.Get(url)`: a response, or an error with its message. -/
inductive GetResult
  | response (resp : Response)
  | failure (err : GoString)

/-- The behaviour of the HTTP clients: what `Get` returns for a client and a URL. -/
abbrev Transport := Nat → GoString → GetResult

/-- The method `FetchImage`; a nil byte slice is `none`. -/
def FetchImage (L : Stdlib) (T : Transport) (c : Capture) (targetURL : GoString)
    (options : RequestOptions) : Option (List Byte) × GoError :=
  match BuildImageURL L c targetURL options with
  | (_, some err) => (none, some err)
  | (url, none) =>
    match T c.Client url with
    | GetResult.failure err => (none, some (str "failed to fetch image: " ++ err))
    | GetResult.response resp =>
      if resp.StatusCode ≠ 200 then
        (none, some (str "HTTP error: " ++ FormatInt resp.StatusCode))
      else
        match resp.ReadErr with
        | some err => (none, some (str "failed to read response body: " ++ err))
        | none => (some resp.Body, none)

/-- The method `FetchPDF`; a nil byte slice is `none`. -/
def FetchPDF (L : Stdlib) (T : Transport) (c : Capture) (targetURL : GoString)
    (options : RequestOptions) : Option (List Byte) × GoError :=
  match BuildPDFURL L c targetURL options with
  | (_, some err) => (none, some err)
  | (url, none) =>
    match T c.Client url with
    | GetResult.failure err => (none, some (str "failed to fetch PDF: " ++ err))
    | GetResult.response resp =>
      if resp.StatusCode ≠ 200 then
        (none, some (str "HTTP error: " ++ FormatInt resp.StatusCode))
      else
        match resp.ReadErr with
        | some err => (none, some (str "failed to read response body: " ++ err))
        | none => (some resp.Body, none)

/-! ## `parseOptions` of the command line (`internal/cli/output.go`) -/

/-- Cut at the first `=`: the text before it and the text after it; `none` when the
string has no `=`. -/
def cutFirstEq : GoString → Option (GoString × GoString)
  | [] => none
  | c :: rest =>
    if c = 61 then some ([], rest)
    else
      match cutFirstEq rest with
      | none => none
      | some (before, after) => some (c :: before, after)

/-- Model of `strings.SplitN(s, "=", 2)`. -/
def SplitN (s : GoString) : List GoString :=
  match cutFirstEq s with
  | none => [s]
  | some (before, after) => [before, after]

/-- Value of a string of decimal digits, `none` when a byte is not a digit. -/
def digitsValue : GoString → Nat → Option Nat
  | [], acc => some acc
  | c :: rest, acc =>
    if 48 ≤ c.val ∧ c.val ≤ 57 then digitsValue rest (acc * 10 + (c.val - 48)) else none

/-- Model of `strconv.Atoi` with a 64-bit `int`: an optional sign and at least one
decimal digit, the value within the range of `int`; `none` stands for an error. -/
def Atoi (s : GoString) : Option Int :=
  match s with
  | [] => none
  | c :: rest =>
    if (if c = 43 ∨ c = 45 then rest else s) = [] then none
    else
      match digitsValue (if c = 43 ∨ c = 45 then rest else s) 0 with
      | none => none
      | some n =>
        if c = 45 then (if n ≤ 2 ^ 63 then some (-(n : Int)) else none)
        else (if n < 2 ^ 63 then some (n : Int) else none)

/-- Model of `strconv.ParseBool`; `none` stands for an error. -/
def ParseBool (s : GoString) : Option Bool :=
  if s ∈ [str "1", str "t", str "T", str "TRUE", str "true", str "True"] then some true
  else if s ∈ [str "0", str "f", str "F", str "FALSE", str "false", str "False"] then
    some false
  else none

/-- ASCII lower-casing of one byte. -/
def lowerByte (c : Byte) : Byte := if 65 ≤ c.val ∧ c.val ≤ 90 then c + 32 else c

/-- A string without one leading sign. -/
def dropSign : GoString → GoString
  | [] => []
  | c :: rest => if c = 43 ∨ c = 45 then rest else c :: rest

/-- A condition every string that `strconv.ParseFloat` accepts meets: it has a decimal
digit (decimal and hexadecimal literals do), or it is, ignoring case and one leading
sign, one of `inf`, `infinity`, `nan`. -/
def floatShaped (s : GoString) : Bool :=
  s.any (fun c => decide (48 ≤ c.val ∧ c.val ≤ 57)) ||
    decide ((dropSign s).map lowerByte ∈ [str "inf", str "infinity", str "nan"])

/-- What the model takes as given of `strconv.ParseFloat(s, 64)`: its result on the
strings that can be floating-point numbers (`none` stands for an error). -/
structure Strconv where
  parseFloat : GoString → Option Float64

/-- Model of `strconv.ParseFloat(s, 64)`: an error on every string that is not
`floatShaped`, the given result on the others. -/
def ParseFloat (S : Strconv) (s : GoString) : Option Float64 :=
  if floatShaped s then S.parseFloat s else none

/-- The typing chain of `parseOptions` (lines 47-55): the value stored for the text
after the first `=`. -/
def typedValue (S : Strconv) (value : GoString) : Value :=
  match Atoi value with
  | some intVal => Value.int intVal
  | none =>
    match ParseFloat S value with
    | some floatVal => Value.float64 floatVal
    | none =>
      match ParseBool value with
      | some boolVal => Value.bool boolVal
      | none => Value.string value

/-- The loop of `parseOptions` with the map `opts` built so far. -/
def parseOptionsLoop (S : Strconv) : List GoString → OptMap → RequestOptions × GoError
  | [], opts => (some opts, none)
  | opt :: rest, opts =>
    if (SplitN opt).length ≠ 2 ∨ (SplitN opt).getD 0 [] = [] then
      (none, some (str "invalid option format: " ++ opt ++ str " (expected key=value)"))
    else
      parseOptionsLoop S rest
        (mapSet opts ((SplitN opt).getD 0 []) (typedValue S ((SplitN opt).getD 1 [])))

/-- The function `parseOptions`. -/
def parseOptions (S : Strconv) (options : List GoString) : RequestOptions × GoError :=
  parseOptionsLoop S options []

/-- A `ParseFloat` to run the model on sample inputs: it accepts `1.5` alone. Only
used to exhibit inputs. -/
def sampleStrconv : Strconv :=
  { parseFloat := fun s => if s = str "1.5" then some ⟨0x3FF8000000000000⟩ else none }

/-- Equality of two strings ignoring the case of ASCII letters. -/
def equalFold (a b : GoString) : Bool := decide (a.map lowerByte = b.map lowerByte)

/-- A token `parseOptions` rejects, as the specification words it: it contains no `=`
or its key is empty, that is, it starts with `=`. -/
def invalidToken (t : GoString) : Bool :=
  decide ((61 : Byte) ∉ t) || decide (t.head? = some 61)

/-- The message of the invalid-option-format error for a token. -/
def invalidOptionMessage (t : GoString) : GoString :=
  str "invalid option format: " ++ t ++ str " (expected key=value)"

/-- The query `buildURL` serialises and signs (line 141): the copied options with
`url` set to the target. -/
def signedQuery (L : Stdlib) (c : Capture) (targetURL : GoString)
    (options : RequestOptions) : GoString :=
  toQueryString L c
    (some (mapSet (copyOptions options) (str "url") (Value.string targetURL)))

/-! ## Reading a query string back -/

/-- Model of `strings.Split(s, "&")`. -/
def splitAmp : GoString → List GoString
  | [] => [[]]
  | c :: rest =>
    if c = 38 then [] :: splitAmp rest
    else
      match splitAmp rest with
      | [] => [[c]]
      | p :: ps => (c :: p) :: ps

/-- Model of `ishex` of `net/url`. -/
def ishex (c : Byte) : Bool :=
  decide ((48 ≤ c.val ∧ c.val ≤ 57) ∨ (97 ≤ c.val ∧ c.val ≤ 102) ∨ (65 ≤ c.val ∧ c.val ≤ 70))

/-- Model of `unhex` of `net/url`. -/
def unhex (c : Byte) : Nat :=
  if 48 ≤ c.val ∧ c.val ≤ 57 then c.val - 48
  else if 97 ≤ c.val ∧ c.val ≤ 102 then c.val - 97 + 10
  else if 65 ≤ c.val ∧ c.val ≤ 70 then c.val - 65 + 10
  else 0

/-- Model of `url.QueryUnescape`: `%XY` becomes the byte with the hexadecimal digits
`XY`, `+` becomes a space, every other byte stays; `none` stands for the error on a
`%` that is not followed by two hexadecimal digits. -/
def QueryUnescape : GoString → Option GoString
  | [] => some []
  | c :: rest =>
    if c = 37 then
      match rest with
      | h :: l :: rest2 =>
        if ishex h ∧ ishex l then
          (QueryUnescape rest2).map (fun t => Fin.ofNat (unhex h * 16 + unhex l) :: t)
        else none
      | _ => none
    else if c = 43 then (QueryUnescape rest).map (fun t => 32 :: t)
    else (QueryUnescape rest).map (fun t => c :: t)

/-- One part of a query read back: cut at the first `=`, both sides unescaped. -/
def decodePair (part : GoString) : Option (GoString × GoString) :=
  match cutFirstEq part with
  | none => none
  | some (k, v) =>
    match QueryUnescape k, QueryUnescape v with
    | some key, some value => some (key, value)
    | _, _ => none

/-- Every part read back, `none` when one of them cannot be read. -/
def decodeParts : List GoString → Option (List (GoString × GoString))
  | [] => some []
  | part :: rest =>
    match decodePair part, decodeParts rest with
    | some e, some es => some (e :: es)
    | _, _ => none

/-- A query string read back the way a receiver does: split on `&`, each part cut at
its first `=`, key and value query-unescaped. -/
def decodeQuery (query : GoString) : Option (List (GoString × GoString)) :=
  decodeParts (splitAmp query)


theorem strLess_irrefl (a : GoString) : strLess a a = false := by
  induction a with
  | nil => rfl
  | cons x xs ih => simp [strLess, ih]

theorem strLess_asymm : ∀ a b : GoString, strLess a b = true → strLess b a = false
  | [], [], h => by simp [strLess] at h
  | [], _ :: _, _ => by simp [strLess]
  | _ :: _, [], h => by simp [strLess] at h
  | x :: xs, y :: ys, h => by
    simp only [strLess, Bool.or_eq_true, Bool.and_eq_true, decide_eq_true_eq, beq_iff_eq] at h
    simp only [strLess, Bool.or_eq_false_iff, Bool.and_eq_false_imp, decide_eq_false_iff_not,
      beq_iff_eq]
    rcases h with h | ⟨h, h2⟩
    · exact ⟨lt_asymm h, fun e => absurd (e ▸ h) (lt_irrefl _)⟩
    · subst h
      exact ⟨lt_irrefl _, fun _ => strLess_asymm xs ys h2⟩

theorem strLess_total : ∀ a b : GoString, strLess a b = false → strLess b a = false → a = b
  | [], [], _, _ => rfl
  | [], _ :: _, h, _ => by simp [strLess] at h
  | _ :: _, [], _, h => by simp [strLess] at h
  | x :: xs, y :: ys, h1, h2 => by
    simp only [strLess, Bool.or_eq_false_iff, Bool.and_eq_false_imp, decide_eq_false_iff_not,
      beq_iff_eq] at h1 h2
    have hxy : x = y := le_antisymm (not_lt.mp h2.1) (not_lt.mp h1.1)
    subst hxy
    rw [strLess_total xs ys (h1.2 rfl) (h2.2 rfl)]

theorem strLess_trans : ∀ a b c : GoString,
    strLess a b = true → strLess b c = true → strLess a c = true
  | [], _, [], _, h => by cases ‹GoString› <;> simp [strLess] at h
  | [], _, _ :: _, _, _ => by simp [strLess]
  | _ :: _, [], _, h, _ => by simp [strLess] at h
  | _ :: _, _ :: _, [], _, h => by simp [strLess] at h
  | x :: xs, y :: ys, z :: zs, h1, h2 => by
    simp only [strLess, Bool.or_eq_true, Bool.and_eq_true, decide_eq_true_eq, beq_iff_eq]
      at h1 h2 ⊢
    rcases h1 with h1 | ⟨e1, h1⟩ <;> rcases h2 with h2 | ⟨e2, h2⟩
    · left; exact lt_trans h1 h2
    · left; exact e2 ▸ h1
    · left; exact e1 ▸ h2
    · right; exact ⟨e1.trans e2, strLess_trans xs ys zs h1 h2⟩

theorem strLe_total (a b : GoString) : strLe a b ∨ strLe b a := by
  unfold strLe
  cases h : strLess b a
  · exact Or.inl rfl
  · exact Or.inr (strLess_asymm b a h)

theorem strLe_antisymm (a b : GoString) (h1 : strLe a b) (h2 : strLe b a) : a = b :=
  strLess_total a b h2 h1

theorem strLe_trans (a b c : GoString) (h1 : strLe a b) (h2 : strLe b c) : strLe a c := by
  unfold strLe at *
  cases h : strLess c a
  · rfl
  · -- c < a and not (b < a), so a ≤ b; and not (c < b)
    cases hab : strLess a b
    · have := strLess_total a b hab h1
      subst this
      rw [h] at h2; exact h2
    · have := strLess_trans c a b h hab
      rw [this] at h2; exact h2

theorem SortStrings_sorted (l : List GoString) : (SortStrings l).Sorted strLe :=
  haveI : IsTotal GoString strLe := ⟨strLe_total⟩
  haveI : IsTrans GoString strLe := ⟨strLe_trans⟩
  List.sorted_insertionSort strLe l

theorem SortStrings_perm (l : List GoString) : (SortStrings l).Perm l :=
  List.perm_insertionSort strLe l

theorem SortStrings_eq_of_perm {l1 l2 : List GoString} (h : l1.Perm l2) :
    SortStrings l1 = SortStrings l2 :=
  haveI : IsAntisymm GoString strLe := ⟨strLe_antisymm⟩
  List.eq_of_perm_of_sorted
    (((SortStrings_perm l1).trans h).trans (SortStrings_perm l2).symm)
    (SortStrings_sorted l1) (SortStrings_sorted l2)


/-! ## Maps -/

theorem mapKeys_cons {β : Type} (e : GoString × β) (m : GoMap β) :
    mapKeys (e :: m) = e.1 :: mapKeys m := rfl

theorem mapKeys_append {β : Type} (m1 m2 : GoMap β) :
    mapKeys (m1 ++ m2) = mapKeys m1 ++ mapKeys m2 := by
  simp [mapKeys]

theorem mapSet_of_not_mem {β : Type} (m : GoMap β) (k : GoString) (v : β)
    (h : k ∉ mapKeys m) : mapSet m k v = m ++ [(k, v)] := by
  induction m with
  | nil => rfl
  | cons e rest ih =>
    obtain ⟨k0, v0⟩ := e
    simp only [mapKeys, List.map_cons, List.mem_cons, not_or] at h
    have hne : ¬ k0 = k := fun e => h.1 e.symm
    simp only [mapSet, hne, if_false, List.cons_append]
    rw [ih h.2]

theorem mapLookup_of_mem {β : Type} {m : GoMap β} (hm : NodupKeys m) {k : GoString} {v : β}
    (h : (k, v) ∈ m) : mapLookup m k = some v := by
  induction m with
  | nil => cases h
  | cons e rest ih =>
    obtain ⟨k0, v0⟩ := e
    have hnd : k0 ∉ mapKeys rest ∧ NodupKeys rest := by
      simpa [NodupKeys, mapKeys] using hm
    rcases List.mem_cons.mp h with h | h
    · cases h; simp [mapLookup]
    · have hne : ¬ k0 = k := by
        rintro rfl
        exact hnd.1 (List.mem_map.mpr ⟨(k0, v), h, rfl⟩)
      simp only [mapLookup, hne, if_false]
      exact ih hnd.2 h

theorem mem_of_mapLookup {β : Type} {m : GoMap β} {k : GoString} {v : β}
    (h : mapLookup m k = some v) : (k, v) ∈ m := by
  induction m with
  | nil => cases h
  | cons e rest ih =>
    obtain ⟨k0, v0⟩ := e
    by_cases hk : k0 = k
    · simp only [mapLookup, hk, if_true, Option.some.injEq] at h
      subst hk; subst h; exact List.mem_cons_self _ _
    · simp only [mapLookup, hk, if_false] at h
      exact List.mem_cons_of_mem _ (ih h)

theorem nodup_of_nodupKeys {β : Type} {m : GoMap β} (hm : NodupKeys m) : m.Nodup :=
  List.Nodup.of_map Prod.fst hm

/-- Two well-formed maps with the same lookups are rearrangements of each other. -/
theorem perm_of_lookup_eq {β : Type} {m1 m2 : GoMap β} (h1 : NodupKeys m1)
    (h2 : NodupKeys m2) (h : ∀ k, mapLookup m1 k = mapLookup m2 k) : m1.Perm m2 := by
  refine (List.perm_ext_iff_of_nodup (nodup_of_nodupKeys h1) (nodup_of_nodupKeys h2)).mpr ?_
  rintro ⟨k, v⟩
  constructor
  · intro hm
    exact mem_of_mapLookup ((h k).symm.trans (mapLookup_of_mem h1 hm))
  · intro hm
    exact mem_of_mapLookup ((h k).trans (mapLookup_of_mem h2 hm))

theorem mapLookup_eq_of_perm {β : Type} {m1 m2 : GoMap β} (h1 : NodupKeys m1)
    (h : m1.Perm m2) (k : GoString) : mapLookup m1 k = mapLookup m2 k := by
  have h2 : NodupKeys m2 := (List.Perm.nodup_iff (h.map Prod.fst)).mp h1
  cases hl : mapLookup m1 k with
  | some v =>
    exact (mapLookup_of_mem h2 (h.subset (mem_of_mapLookup hl))).symm
  | none =>
    cases hr : mapLookup m2 k with
    | none => rfl
    | some v =>
      have := mapLookup_of_mem h1 (h.symm.subset (mem_of_mapLookup hr))
      rw [hl] at this; cases this

/-! ## The first loop of `toQueryString` -/

theorem paramsStep_of_survives (L : Stdlib) (params : GoMap GoString) (e : GoString × Value)
    (h : survives e = true) : paramsStep L params e = mapSet params e.1 (strValue L e.2) := by
  simp only [survives, decide_eq_true_eq] at h
  simp [paramsStep, h.1, h.2.1, h.2.2]

theorem paramsStep_of_not_survives (L : Stdlib) (params : GoMap GoString)
    (e : GoString × Value) (h : survives e = false) : paramsStep L params e = params := by
  simp only [survives, decide_eq_false_iff_not, not_and_or, not_not] at h
  unfold paramsStep
  by_cases hf : e.1 = str "format"
  · simp [hf]
  · rcases h with h | h | h
    · exact absurd h hf
    · simp [hf, h]
    · simp [hf, h]

/-- The entries of `params` for a well-formed option map. -/
def paramEntries (L : Stdlib) (m : OptMap) : GoMap GoString :=
  (m.filter survives).map (fun e => (e.1, strValue L e.2))

theorem mapKeys_paramEntries (L : Stdlib) (m : OptMap) :
    mapKeys (paramEntries L m) = mapKeys (m.filter survives) := by
  simp [paramEntries, mapKeys, List.map_map, Function.comp_def]

theorem foldl_paramsStep (L : Stdlib) (m : OptMap) :
    ∀ acc : GoMap GoString, NodupKeys m → (∀ k ∈ mapKeys m, k ∉ mapKeys acc) →
      m.foldl (paramsStep L) acc = acc ++ paramEntries L m := by
  induction m with
  | nil => intro acc _ _; simp [paramEntries]
  | cons e rest ih =>
    intro acc hm hdis
    have hnd : e.1 ∉ mapKeys rest ∧ NodupKeys rest := by
      simpa [NodupKeys, mapKeys] using hm
    have he : e.1 ∉ mapKeys acc := hdis e.1 (by simp [mapKeys])
    have hrest : ∀ k ∈ mapKeys rest, k ∉ mapKeys acc := fun k hk =>
      hdis k (by rw [mapKeys_cons]; exact List.mem_cons_of_mem _ hk)
    rw [List.foldl_cons]
    cases hs : survives e with
    | false =>
      rw [paramsStep_of_not_survives L acc e hs, ih acc hnd.2 hrest]
      simp [paramEntries, List.filter_cons, hs]
    | true =>
      rw [paramsStep_of_survives L acc e hs, mapSet_of_not_mem acc e.1 _ he]
      rw [ih _ hnd.2]
      · simp [paramEntries, List.filter_cons, hs]
      · intro k hk
        rw [mapKeys_append]
        simp only [List.mem_append, not_or]
        refine ⟨hrest k hk, ?_⟩
        simp only [mapKeys, List.map_cons, List.map_nil, List.mem_singleton]
        rintro rfl
        exact hnd.1 hk

theorem buildParams_eq (L : Stdlib) (m : OptMap) (hm : NodupKeys m) :
    buildParams L m = paramEntries L m := by
  unfold buildParams
  rw [foldl_paramsStep L m [] hm (by simp [mapKeys])]
  rfl


/-! ## The second loop of `toQueryString` -/

theorem mapKeys_sortByKey {β : Type} (m : GoMap β) :
    mapKeys (sortByKey m) = SortStrings (mapKeys m) := by
  unfold mapKeys sortByKey SortStrings
  exact List.map_insertionSort (fun a b => strLe a.1 b.1) strLe Prod.fst m
    (fun _ _ _ _ => Iff.rfl)

theorem sortByKey_map {β γ : Type} (g : β → γ) (m : GoMap β) :
    sortByKey (m.map (fun e => (e.1, g e.2))) = (sortByKey m).map (fun e => (e.1, g e.2)) := by
  unfold sortByKey
  exact (List.map_insertionSort (fun a b => strLe a.1 b.1) (fun a b => strLe a.1 b.1)
    (fun e : GoString × β => (e.1, g e.2)) m (fun _ _ _ _ => Iff.rfl)).symm

theorem sortByKey_perm {β : Type} (m : GoMap β) : (sortByKey m).Perm m :=
  List.perm_insertionSort _ m

theorem queryParts_eq_map {params : GoMap GoString} (hp : NodupKeys params) :
    queryParts params =
      (sortByKey params).map (fun e => QueryEscape e.1 ++ str "=" ++ QueryEscape e.2) := by
  unfold queryParts sortedKeys
  rw [← mapKeys_sortByKey, mapKeys, List.map_map]
  apply List.map_congr_left
  intro e he
  have hmem : (e.1, e.2) ∈ params := (sortByKey_perm params).subset he
  simp [mapGet, mapLookup_of_mem hp hmem]

theorem nodupKeys_filter {β : Type} {m : GoMap β} (hm : NodupKeys m) (p : GoString × β → Bool) :
    NodupKeys (m.filter p) :=
  List.Nodup.sublist (List.Sublist.map Prod.fst (List.filter_sublist m)) hm

theorem nodupKeys_paramEntries (L : Stdlib) {m : OptMap} (hm : NodupKeys m) :
    NodupKeys (paramEntries L m) := by
  unfold NodupKeys
  rw [mapKeys_paramEntries]
  exact nodupKeys_filter hm survives

/-- The pairs of the output for a well-formed map: the surviving entries, in
ascending key order, each rendered. -/
theorem queryParts_buildParams (L : Stdlib) {m : OptMap} (hm : NodupKeys m) :
    queryParts (buildParams L m) = (sortByKey (m.filter survives)).map (renderPair L) := by
  rw [buildParams_eq L m hm, queryParts_eq_map (nodupKeys_paramEntries L hm)]
  unfold paramEntries
  rw [sortByKey_map, List.map_map]
  rfl

theorem toQueryString_some (L : Stdlib) (c : Capture) (m : OptMap) :
    toQueryString L c (some m) = Join (queryParts (buildParams L m)) (str "&") := rfl

theorem toQueryString_eq (L : Stdlib) (c : Capture) {m : OptMap} (hm : NodupKeys m) :
    toQueryString L c (some m) =
      Join ((sortByKey (m.filter survives)).map (renderPair L)) (str "&") := by
  rw [toQueryString_some, queryParts_buildParams L hm]

theorem queryParts_eq_of_perm {p1 p2 : GoMap GoString} (h1 : NodupKeys p1)
    (h : p1.Perm p2) : queryParts p1 = queryParts p2 := by
  unfold queryParts sortedKeys mapKeys
  rw [SortStrings_eq_of_perm (h.map Prod.fst)]
  apply List.map_congr_left
  intro k _
  simp [mapGet, mapLookup_eq_of_perm h1 h k]

theorem toQueryString_eq_of_perm (L : Stdlib) (c1 c2 : Capture) {m1 m2 : OptMap}
    (h1 : NodupKeys m1) (h : m1.Perm m2) :
    toQueryString L c1 (some m1) = toQueryString L c2 (some m2) := by
  have h2 : NodupKeys m2 := (List.Perm.nodup_iff (h.map Prod.fst)).mp h1
  rw [toQueryString_some, toQueryString_some, buildParams_eq L m1 h1, buildParams_eq L m2 h2]
  rw [queryParts_eq_of_perm (nodupKeys_paramEntries L h1)
    ((h.filter survives).map _)]
  rfl

/-! ## Invariants of `params` that need no well-formedness of the input -/

theorem mem_mapKeys_mapSet {β : Type} (m : GoMap β) (k : GoString) (v : β) (k1 : GoString) :
    k1 ∈ mapKeys (mapSet m k v) ↔ k1 = k ∨ k1 ∈ mapKeys m := by
  induction m with
  | nil => simp [mapSet, mapKeys]
  | cons e rest ih =>
    obtain ⟨k0, v0⟩ := e
    by_cases hk : k0 = k
    · subst hk
      simp [mapSet, mapKeys]
    · have ih2 : k1 ∈ List.map Prod.fst (mapSet rest k v) ↔ k1 = k ∨ k1 ∈ List.map Prod.fst rest :=
        ih
      simp only [mapSet, hk, if_false, mapKeys, List.map_cons, List.mem_cons, ih2]
      tauto

theorem nodupKeys_mapSet {β : Type} {m : GoMap β} (hm : NodupKeys m) (k : GoString) (v : β) :
    NodupKeys (mapSet m k v) := by
  induction m with
  | nil => simp [mapSet, NodupKeys, mapKeys]
  | cons e rest ih =>
    obtain ⟨k0, v0⟩ := e
    have hnd : k0 ∉ mapKeys rest ∧ NodupKeys rest := by
      simpa [NodupKeys, mapKeys] using hm
    by_cases hk : k0 = k
    · subst hk
      simpa [mapSet, NodupKeys, mapKeys] using hm
    · simp only [mapSet, hk, if_false]
      unfold NodupKeys
      rw [mapKeys_cons, List.nodup_cons]
      refine ⟨?_, ih hnd.2⟩
      rw [mem_mapKeys_mapSet]
      rintro (h | h)
      · exact hk h
      · exact hnd.1 h

theorem paramsStep_inv (L : Stdlib) (params : GoMap GoString) (e : GoString × Value)
    (h : NodupKeys params ∧ str "format" ∉ mapKeys params) :
    NodupKeys (paramsStep L params e) ∧ str "format" ∉ mapKeys (paramsStep L params e) := by
  unfold paramsStep
  split_ifs with h1 h2
  · exact h
  · exact h
  · refine ⟨nodupKeys_mapSet h.1 _ _, ?_⟩
    rw [mem_mapKeys_mapSet]
    rintro (h3 | h3)
    · exact h1 h3.symm
    · exact h.2 h3

theorem foldl_paramsStep_inv (L : Stdlib) (m : OptMap) :
    ∀ acc : GoMap GoString, NodupKeys acc ∧ str "format" ∉ mapKeys acc →
      NodupKeys (m.foldl (paramsStep L) acc) ∧
        str "format" ∉ mapKeys (m.foldl (paramsStep L) acc) := by
  induction m with
  | nil => intro acc h; exact h
  | cons e rest ih => intro acc h; exact ih _ (paramsStep_inv L acc e h)

theorem buildParams_inv (L : Stdlib) (m : OptMap) :
    NodupKeys (buildParams L m) ∧ str "format" ∉ mapKeys (buildParams L m) :=
  foldl_paramsStep_inv L m [] ⟨by simp [NodupKeys, mapKeys], by simp [mapKeys]⟩

theorem mem_sortedKeys (params : GoMap GoString) (k : GoString) :
    k ∈ sortedKeys params ↔ k ∈ mapKeys params :=
  (SortStrings_perm (mapKeys params)).mem_iff

theorem strLess_of_strLe_of_ne {a b : GoString} (h : strLe a b) (hne : a ≠ b) :
    strLess a b = true := by
  cases hab : strLess a b
  · exact absurd (strLess_total a b hab h) hne
  · rfl

theorem sortedKeys_strict {params : GoMap GoString} (hp : NodupKeys params) :
    (sortedKeys params).Sorted (fun a b => strLess a b = true) := by
  have hs : (sortedKeys params).Pairwise strLe := SortStrings_sorted (mapKeys params)
  have hn : (sortedKeys params).Pairwise (fun a b => a ≠ b) :=
    ((SortStrings_perm (mapKeys params)).nodup_iff).mpr hp
  exact (hs.and hn).imp (fun h => strLess_of_strLe_of_ne h.1 h.2)

theorem foldl_paramsStep_mapDelete (L : Stdlib) (m : OptMap) :
    ∀ acc : GoMap GoString,
      (mapDelete m (str "format")).foldl (paramsStep L) acc = m.foldl (paramsStep L) acc := by
  induction m with
  | nil => intro acc; rfl
  | cons e rest ih =>
    intro acc
    by_cases hk : e.1 = str "format"
    · have : mapDelete (e :: rest) (str "format") = mapDelete rest (str "format") := by
        simp [mapDelete, List.filter_cons, hk]
      rw [this, ih, List.foldl_cons]
      simp [paramsStep, hk]
    · have : mapDelete (e :: rest) (str "format") = e :: mapDelete rest (str "format") := by
        simp [mapDelete, List.filter_cons, hk]
      rw [this, List.foldl_cons, List.foldl_cons, ih]

theorem mapDelete_mapSet {β : Type} (m : GoMap β) (k : GoString) (v : β) :
    mapDelete (mapSet m k v) k = mapDelete m k := by
  induction m with
  | nil => simp [mapSet, mapDelete]
  | cons e rest ih =>
    obtain ⟨k0, v0⟩ := e
    by_cases hk : k0 = k
    · subst hk
      simp [mapSet, mapDelete]
    · simp only [mapSet, hk, if_false]
      simp only [mapDelete] at ih ⊢
      rw [List.filter_cons, List.filter_cons, ih]

theorem toQueryString_mapDelete (L : Stdlib) (c : Capture) (m : OptMap) :
    toQueryString L c (some (mapDelete m (str "format"))) = toQueryString L c (some m) := by
  rw [toQueryString_some, toQueryString_some]
  unfold buildParams
  rw [foldl_paramsStep_mapDelete]

/-! ## `QueryEscape` against the byte-wise description -/

set_option maxRecDepth 100000 in
theorem shouldEscape_eq_not_unreserved : ∀ c : Byte, shouldEscape c = !unreserved c := by
  decide

theorem escapeByte_of_not_shouldEscape {c : Byte} (h : shouldEscape c = false) :
    escapeByte c = [c] := by
  have hu : unreserved c = true := by
    have := shouldEscape_eq_not_unreserved c
    rw [h] at this
    simpa using this.symm
  simp [escapeByte, hu]

theorem escapeByte_space : escapeByte 32 = [43] := by decide

theorem escapeByte_of_shouldEscape {c : Byte} (h : shouldEscape c = true) (hs : ¬ c.val = 32) :
    escapeByte c = [37, upperhex (c.val / 16), upperhex (c.val % 16)] := by
  have hu : unreserved c = false := by
    have := shouldEscape_eq_not_unreserved c
    rw [h] at this
    simpa using this.symm
  have hc : ¬ c = 32 := fun e => hs (by rw [e]; rfl)
  simp only [escapeByte, hu, hc, if_false, Bool.false_eq_true, upperhex]
  rfl

theorem escapeFill_cons (c : Byte) (rest : GoString) :
    escapeFill (c :: rest) =
      if c.val = 32 then 43 :: escapeFill rest
      else if shouldEscape c then
        37 :: upperhex (c.val / 16) :: upperhex (c.val % 16) :: escapeFill rest
      else c :: escapeFill rest := rfl

theorem escapeFill_eq (s : GoString) : escapeFill s = s.flatMap escapeByte := by
  induction s with
  | nil => rfl
  | cons c rest ih =>
    rw [List.flatMap_cons, ← ih, escapeFill_cons]
    by_cases hs : c.val = 32
    · have hc : c = 32 := Fin.ext hs
      subst hc
      rw [if_pos hs, escapeByte_space]
      rfl
    · rw [if_neg hs]
      cases he : shouldEscape c
      · rw [escapeByte_of_not_shouldEscape he]
        simp
      · rw [escapeByte_of_shouldEscape he hs]
        simp

theorem flatMap_escapeByte_of_count_zero (s : GoString) (h : escapeCount s = 0) :
    s.flatMap escapeByte = s := by
  induction s with
  | nil => rfl
  | cons c rest ih =>
    unfold escapeCount at h
    cases he : shouldEscape c
    · rw [he] at h
      simp only [Bool.false_eq_true, if_false, Nat.zero_add] at h
      rw [List.flatMap_cons, ih h, escapeByte_of_not_shouldEscape he]
      rfl
    · rw [he] at h
      simp at h

theorem QueryEscape_eq (s : GoString) : QueryEscape s = s.flatMap escapeByte := by
  unfold QueryEscape
  split_ifs with h
  · exact (flatMap_escapeByte_of_count_zero s h).symm
  · exact escapeFill_eq s

/-! ## `generateToken` -/

theorem EncodeToString_length (d : List Byte) : (EncodeToString d).length = 2 * d.length := by
  induction d with
  | nil => rfl
  | cons v rest ih => simp only [EncodeToString, List.length_cons, ih]; omega

theorem hextable_mem : ∀ n : Fin 16, hextable n.val ∈ str "0123456789abcdef" := by decide

theorem EncodeToString_hex (d : List Byte) :
    ∀ b ∈ EncodeToString d, b ∈ str "0123456789abcdef" := by
  induction d with
  | nil => intro b hb; cases hb
  | cons v rest ih =>
    intro b hb
    simp only [EncodeToString, List.mem_cons] at hb
    rcases hb with hb | hb | hb
    · rw [hb]
      exact hextable_mem ⟨v.val / 16, by have := v.isLt; omega⟩
    · rw [hb]
      exact hextable_mem ⟨v.val % 16, by omega⟩
    · exact ih b hb

/-! ## `buildURL` -/

theorem foldl_mapSet (m : OptMap) :
    ∀ acc : OptMap, NodupKeys m → (∀ k ∈ mapKeys m, k ∉ mapKeys acc) →
      m.foldl (fun requestOptions e => mapSet requestOptions e.1 e.2) acc = acc ++ m := by
  induction m with
  | nil => intro acc _ _; simp
  | cons e rest ih =>
    intro acc hm hdis
    have hnd : e.1 ∉ mapKeys rest ∧ NodupKeys rest := by
      simpa [NodupKeys, mapKeys] using hm
    have he : e.1 ∉ mapKeys acc := hdis e.1 (by simp [mapKeys])
    rw [List.foldl_cons, mapSet_of_not_mem acc e.1 e.2 he, ih _ hnd.2]
    · simp
    · intro k hk
      rw [mapKeys_append]
      simp only [List.mem_append, not_or]
      refine ⟨hdis k (by rw [mapKeys_cons]; exact List.mem_cons_of_mem _ hk), ?_⟩
      simp only [mapKeys, List.map_cons, List.map_nil, List.mem_singleton]
      rintro rfl
      exact hnd.1 hk

theorem copyOptions_eq (options : RequestOptions) (h : NodupKeys (options.getD [])) :
    copyOptions options = options.getD [] := by
  cases options with
  | none => rfl
  | some m =>
    simp only [copyOptions, Option.getD_some] at h ⊢
    rw [foldl_mapSet m [] h (by simp [mapKeys])]
    rfl

theorem buildURL_ok (L : Stdlib) (c : Capture) (requestType targetURL : GoString)
    (options : RequestOptions) (hkey : c.Key ≠ []) (hsecret : c.Secret ≠ [])
    (hurl : targetURL ≠ []) :
    buildURL L c requestType targetURL options =
      (signedURL L c requestType targetURL (copyOptions options), none) := by
  unfold buildURL signedURL signAndFormat
  simp only [hkey, hsecret, hurl, or_self, if_false, ne_eq, ite_not, List.append_assoc]
  split_ifs <;> simp

/-! ## Writes to a store -/

theorem getD_append_fresh (maps : List OptMap) (x : OptMap) (ref : Nat) :
    (maps ++ [x]).getD ref [] = if ref = maps.length then x else maps.getD ref [] := by
  induction maps generalizing ref with
  | nil =>
    cases ref with
    | zero => rfl
    | succ n => simp
  | cons m rest ih =>
    cases ref with
    | zero => simp
    | succ n =>
      simp only [List.cons_append, List.getD_cons_succ, List.length_cons, Nat.succ.injEq]
      exact ih n

theorem set_append_fresh (maps : List OptMap) (x y : OptMap) :
    (maps ++ [x]).set maps.length y = maps ++ [y] := by
  induction maps with
  | nil => rfl
  | cons m rest ih => simp only [List.cons_append, List.length_cons, List.set_cons_succ, ih]

theorem assign_fresh (c : Capture) (maps : List OptMap) (x : OptMap) (k : GoString)
    (v : Value) :
    Store.assign ⟨c, maps ++ [x]⟩ maps.length k v = ⟨c, maps ++ [mapSet x k v]⟩ := by
  simp only [Store.assign, Store.read, getD_append_fresh, if_true, set_append_fresh]

theorem foldl_assign_fresh (c : Capture) (maps : List OptMap) (entries : OptMap) :
    ∀ x : OptMap,
      entries.foldl
          (fun (st : Store) (e : GoString × Value) => st.assign maps.length e.1 e.2)
          ⟨c, maps ++ [x]⟩ =
        ⟨c, maps ++ [entries.foldl (fun requestOptions e => mapSet requestOptions e.1 e.2) x]⟩ := by
  induction entries with
  | nil => intro x; rfl
  | cons e rest ih =>
    intro x
    rw [List.foldl_cons, List.foldl_cons, assign_fresh, ih]

/-- The store after a successful `buildURL`: the old objects and one new map that
holds the copied options and `url`. -/
theorem runBuildURL_ok (L : Stdlib) (requestType targetURL : GoString) (options : Option Nat)
    (s : Store) (hkey : s.client.Key ≠ []) (hsecret : s.client.Secret ≠ [])
    (hurl : targetURL ≠ []) :
    runBuildURL L requestType targetURL options s =
      (signAndFormat L s.client requestType
          (mapSet (copyOptions (options.map s.read)) (str "url") (Value.string targetURL)),
        ⟨s.client, s.maps ++
          [mapSet (copyOptions (options.map s.read)) (str "url") (Value.string targetURL)]⟩) := by
  obtain ⟨c, maps⟩ := s
  have hloop : (match options with
      | none => (⟨c, maps ++ [[]]⟩ : Store)
      | some ref => (Store.read ⟨c, maps ++ [[]]⟩ ref).foldl
          (fun (st : Store) (e : GoString × Value) => st.assign maps.length e.1 e.2)
          ⟨c, maps ++ [[]]⟩) =
      ⟨c, maps ++ [copyOptions (options.map (Store.read ⟨c, maps⟩))]⟩ := by
    cases options with
    | none => rfl
    | some ref =>
      simp only [Option.map_some', copyOptions]
      rw [foldl_assign_fresh]
      simp only [Store.read, getD_append_fresh]
      by_cases href : ref = maps.length
      · have hnone : maps.getD ref [] = [] := by
          rw [href]
          exact List.getD_eq_default _ _ (le_refl _)
        rw [if_pos href, hnone]
      · rw [if_neg href]
  simp only [runBuildURL, Store.make]
  simp only [hkey, hsecret, hurl, or_self, if_false]
  rw [hloop, assign_fresh]
  simp only [Store.read, getD_append_fresh, if_true]

theorem runBuildURL_fail (L : Stdlib) (requestType targetURL : GoString) (options : Option Nat)
    (s : Store) (h : s.client.Key = [] ∨ s.client.Secret = [] ∨ targetURL = []) :
    runBuildURL L requestType targetURL options s =
      (buildURL L s.client requestType targetURL (options.map s.read), s) := by
  unfold runBuildURL buildURL
  by_cases hk : s.client.Key = [] ∨ s.client.Secret = []
  · simp only [hk, if_true]
  · have hu : targetURL = [] := by tauto
    simp only [hk, hu, if_true, if_false]

/-! ## `parseOptions` -/

theorem cutFirstEq_cons (c : Byte) (rest : GoString) :
    cutFirstEq (c :: rest) =
      if c = 61 then some ([], rest)
      else
        match cutFirstEq rest with
        | none => none
        | some (before, after) => some (c :: before, after) := rfl

theorem cutFirstEq_append (key value : GoString) (h : (61 : Byte) ∉ key) :
    cutFirstEq (key ++ 61 :: value) = some (key, value) := by
  induction key with
  | nil => simp [cutFirstEq]
  | cons c rest ih =>
    have hc : ¬ c = 61 := fun e => h (by rw [e]; exact List.mem_cons_self _ _)
    have hr : (61 : Byte) ∉ rest := fun e => h (List.mem_cons_of_mem _ e)
    rw [List.cons_append, cutFirstEq_cons, if_neg hc, ih hr]

theorem cutFirstEq_none (s : GoString) (h : (61 : Byte) ∉ s) : cutFirstEq s = none := by
  induction s with
  | nil => rfl
  | cons c rest ih =>
    have hc : ¬ c = 61 := fun e => h (by rw [e]; exact List.mem_cons_self _ _)
    have hr : (61 : Byte) ∉ rest := fun e => h (List.mem_cons_of_mem _ e)
    rw [cutFirstEq_cons, if_neg hc, ih hr]

theorem cutFirstEq_some (s : GoString) (h : (61 : Byte) ∈ s) :
    ∃ key value, (61 : Byte) ∉ key ∧ s = key ++ 61 :: value := by
  induction s with
  | nil => cases h
  | cons c rest ih =>
    by_cases hc : c = 61
    · exact ⟨[], rest, by simp, by rw [hc]; rfl⟩
    · have hr : (61 : Byte) ∈ rest := by
        rcases List.mem_cons.mp h with h | h
        · exact absurd h.symm hc
        · exact h
      obtain ⟨key, value, hk, hs⟩ := ih hr
      refine ⟨c :: key, value, ?_, by rw [hs]; rfl⟩
      intro hm
      rcases List.mem_cons.mp hm with hm | hm
      · exact hc hm.symm
      · exact hk hm

theorem str_eq_sign : str "=" = [61] := by decide

/-- The guard of `parseOptions` (line 40) holds exactly for the invalid tokens. -/
theorem guard_iff_invalid (t : GoString) :
    ((SplitN t).length ≠ 2 ∨ (SplitN t).getD 0 [] = []) ↔ invalidToken t = true := by
  by_cases h : (61 : Byte) ∈ t
  · obtain ⟨key, value, hk, ht⟩ := cutFirstEq_some t h
    subst ht
    have hno : ¬ (61 : Byte) ∉ key ++ 61 :: value := fun e => e h
    simp only [SplitN, cutFirstEq_append key value hk, invalidToken, hno, decide_False,
      Bool.false_or, decide_eq_true_eq]
    cases key with
    | nil => simp
    | cons c rest =>
      have hc : ¬ c = 61 := fun e => hk (by rw [e]; exact List.mem_cons_self _ _)
      simp [hc]
  · simp [SplitN, cutFirstEq_none t h, invalidToken, h]

theorem parseOptionsLoop_valid (S : Strconv) (key value : GoString) (rest : List GoString)
    (opts : OptMap) (hkey : key ≠ []) (hno : (61 : Byte) ∉ key) :
    parseOptionsLoop S ((key ++ str "=" ++ value) :: rest) opts =
      parseOptionsLoop S rest (mapSet opts key (typedValue S value)) := by
  have hs : SplitN (key ++ str "=" ++ value) = [key, value] := by
    rw [str_eq_sign, List.append_assoc]
    simp only [SplitN, List.singleton_append, cutFirstEq_append key value hno]
  rw [parseOptionsLoop, hs]
  simp [hkey]

theorem parseOptionsLoop_invalid (S : Strconv) (t : GoString) (rest : List GoString)
    (opts : OptMap) (h : invalidToken t = true) :
    parseOptionsLoop S (t :: rest) opts = (none, some (invalidOptionMessage t)) := by
  rw [parseOptionsLoop, if_pos ((guard_iff_invalid t).mpr h)]
  rfl

theorem parseOptionsLoop_step (S : Strconv) (t : GoString) (rest : List GoString)
    (opts : OptMap) (h : invalidToken t = false) :
    ∃ opts2, parseOptionsLoop S (t :: rest) opts = parseOptionsLoop S rest opts2 := by
  have hg : ¬ ((SplitN t).length ≠ 2 ∨ (SplitN t).getD 0 [] = []) := by
    rw [guard_iff_invalid, h]
    simp
  rw [parseOptionsLoop, if_neg hg]
  exact ⟨_, rfl⟩

theorem parseOptionsLoop_ok (S : Strconv) (options : List GoString) :
    ∀ opts : OptMap, (∀ t ∈ options, invalidToken t = false) →
      ∃ result, parseOptionsLoop S options opts = (some result, none) := by
  induction options with
  | nil => intro opts _; exact ⟨opts, rfl⟩
  | cons t rest ih =>
    intro opts h
    obtain ⟨opts2, h2⟩ := parseOptionsLoop_step S t rest opts (h t (List.mem_cons_self _ _))
    rw [h2]
    exact ih opts2 (fun u hu => h u (List.mem_cons_of_mem _ hu))

theorem parseOptionsLoop_first_invalid (S : Strconv) (good : List GoString) (t : GoString)
    (rest : List GoString) :
    ∀ opts : OptMap, (∀ g ∈ good, invalidToken g = false) → invalidToken t = true →
      parseOptionsLoop S (good ++ t :: rest) opts = (none, some (invalidOptionMessage t)) := by
  induction good with
  | nil => intro opts _ ht; exact parseOptionsLoop_invalid S t rest opts ht
  | cons g more ih =>
    intro opts hg ht
    obtain ⟨opts2, h2⟩ :=
      parseOptionsLoop_step S g (more ++ t :: rest) opts (hg g (List.mem_cons_self _ _))
    rw [List.cons_append, h2]
    exact ih opts2 (fun u hu => hg u (List.mem_cons_of_mem _ hu)) ht

theorem first_invalid_split (options : List GoString)
    (h : ∃ t ∈ options, invalidToken t = true) :
    ∃ good t rest, options = good ++ t :: rest ∧ (∀ g ∈ good, invalidToken g = false) ∧
      invalidToken t = true := by
  induction options with
  | nil => obtain ⟨t, ht, _⟩ := h; cases ht
  | cons u more ih =>
    cases hu : invalidToken u with
    | true => exact ⟨[], u, more, rfl, by simp, hu⟩
    | false =>
      obtain ⟨t, ht, hbad⟩ := h
      have hmore : ∃ t ∈ more, invalidToken t = true := by
        rcases List.mem_cons.mp ht with ht | ht
        · rw [ht, hu] at hbad; cases hbad
        · exact ⟨t, ht, hbad⟩
      obtain ⟨good, t2, rest, hsplit, hgood, ht2⟩ := ih hmore
      refine ⟨u :: good, t2, rest, by rw [hsplit]; rfl, ?_, ht2⟩
      intro g hg
      rcases List.mem_cons.mp hg with hg | hg
      · rw [hg]; exact hu
      · exact hgood g hg

/-! ## More on `buildURL` -/

theorem buildURL_err_iff (L : Stdlib) (c : Capture) (rt targetURL : GoString)
    (options : RequestOptions) :
    (buildURL L c rt targetURL options).2 ≠ none ↔
      (c.Key = [] ∨ c.Secret = [] ∨ targetURL = []) := by
  by_cases hk : c.Key = [] ∨ c.Secret = []
  · have hres : buildURL L c rt targetURL options =
        ([], some (str "key and secret are required")) := by
      unfold buildURL
      rw [if_pos hk]
    rw [hres]
    simp only [ne_eq, reduceCtorEq, not_false_eq_true, true_iff]
    tauto
  · by_cases hu : targetURL = []
    · have hres : buildURL L c rt targetURL options = ([], some (str "url is required")) := by
        unfold buildURL
        rw [if_neg hk, if_pos hu]
      rw [hres]
      simp only [ne_eq, reduceCtorEq, not_false_eq_true, true_iff]
      exact Or.inr (Or.inr hu)
    · have hk2 : c.Key ≠ [] ∧ c.Secret ≠ [] := not_or.mp hk
      rw [buildURL_ok L c rt targetURL options hk2.1 hk2.2 hu]
      simp only [ne_eq, not_true_eq_false, false_iff]
      tauto

theorem Join_cons_cons (a b : GoString) (rest : List GoString) (sep : GoString) :
    Join (a :: b :: rest) sep = a ++ sep ++ Join (b :: rest) sep := rfl

theorem Join_infix (sep : GoString) (parts : List GoString) :
    ∀ p ∈ parts, p <:+: Join parts sep := by
  induction parts with
  | nil => intro p hp; cases hp
  | cons a more ih =>
    intro p hp
    cases more with
    | nil =>
      rw [List.mem_singleton] at hp
      subst hp
      exact ⟨[], [], by simp [Join]⟩
    | cons b rest =>
      rw [Join_cons_cons]
      rcases List.mem_cons.mp hp with hp | hp
      · subst hp
        exact ⟨[], sep ++ Join (b :: rest) sep, by simp⟩
      · obtain ⟨s, t, hst⟩ := ih p hp
        exact ⟨a ++ sep ++ s, t, by rw [← hst]; simp⟩

theorem foldl_mapSet_nodup (m : OptMap) :
    ∀ acc : OptMap, NodupKeys acc →
      NodupKeys (m.foldl (fun requestOptions e => mapSet requestOptions e.1 e.2) acc) := by
  induction m with
  | nil => intro acc h; exact h
  | cons e rest ih => intro acc h; exact ih _ (nodupKeys_mapSet h e.1 e.2)

theorem nodupKeys_copyOptions (options : RequestOptions) : NodupKeys (copyOptions options) := by
  cases options with
  | none => simp [copyOptions, NodupKeys, mapKeys]
  | some m => exact foldl_mapSet_nodup m [] (by simp [NodupKeys, mapKeys])

theorem mem_mapSet_self {β : Type} (m : GoMap β) (k : GoString) (v : β) :
    (k, v) ∈ mapSet m k v := by
  induction m with
  | nil => simp [mapSet]
  | cons e rest ih =>
    obtain ⟨k0, v0⟩ := e
    by_cases hk : k0 = k
    · simp [mapSet, hk]
    · simp only [mapSet, hk, if_false]
      exact List.mem_cons_of_mem _ ih

theorem mapLookup_mapSet {β : Type} (m : GoMap β) (k : GoString) (v : β) (k2 : GoString) :
    mapLookup (mapSet m k v) k2 = if k2 = k then some v else mapLookup m k2 := by
  induction m with
  | nil =>
    by_cases h : k2 = k
    · simp [mapSet, mapLookup, h]
    · have h2 : ¬ k = k2 := fun e => h e.symm
      simp [mapSet, mapLookup, h, h2]
  | cons e rest ih =>
    obtain ⟨k0, v0⟩ := e
    by_cases hk : k0 = k
    · subst hk
      by_cases h : k2 = k0
      · simp [mapSet, mapLookup, h]
      · have h2 : ¬ k0 = k2 := fun e => h e.symm
        simp [mapSet, mapLookup, h, h2]
    · simp only [mapSet, hk, if_false, mapLookup, ih]
      by_cases h0 : k0 = k2
      · have h3 : ¬ k2 = k := fun e => hk (h0.trans e)
        simp [h0, h3]
      · simp [h0]

theorem mapLookup_mapDelete {β : Type} (m : GoMap β) (k k2 : GoString) :
    mapLookup (mapDelete m k) k2 = if k2 = k then none else mapLookup m k2 := by
  induction m with
  | nil => simp [mapDelete, mapLookup]
  | cons e rest ih =>
    obtain ⟨k0, v0⟩ := e
    have ih2 : mapLookup (List.filter (fun e => decide (e.1 ≠ k)) rest) k2 =
        if k2 = k then none else mapLookup rest k2 := ih
    by_cases hk : k0 = k
    · subst hk
      simp only [mapDelete, List.filter_cons, ne_eq, not_true_eq_false, decide_False,
        Bool.false_eq_true, if_false, ih2, mapLookup]
      by_cases h : k2 = k0
      · simp [h]
      · have h2 : ¬ k0 = k2 := fun e => h e.symm
        simp [h, h2]
    · simp only [mapDelete, List.filter_cons, ne_eq, hk, not_false_eq_true, decide_True,
        if_true, mapLookup, ih2]
      by_cases h0 : k0 = k2
      · have h3 : ¬ k2 = k := fun e => hk (h0.trans e)
        simp [h0, h3]
      · simp [h0]

/-- Two well-formed maps that agree under every key other than `format` serialise to
the same bytes. -/
theorem toQueryString_congr (L : Stdlib) (c : Capture) {a b : OptMap} (ha : NodupKeys a)
    (hb : NodupKeys b) (h : ∀ k, k ≠ str "format" → mapLookup a k = mapLookup b k) :
    toQueryString L c (some a) = toQueryString L c (some b) := by
  rw [← toQueryString_mapDelete L c a, ← toQueryString_mapDelete L c b]
  have hda : NodupKeys (mapDelete a (str "format")) := nodupKeys_filter ha _
  have hdb : NodupKeys (mapDelete b (str "format")) := nodupKeys_filter hb _
  refine toQueryString_eq_of_perm L c c hda (perm_of_lookup_eq hda hdb ?_)
  intro k
  rw [mapLookup_mapDelete, mapLookup_mapDelete]
  by_cases hk : k = str "format"
  · simp [hk]
  · simp [hk, h k hk]

theorem url_part_mem (L : Stdlib) (targetURL : GoString) (options : RequestOptions)
    (hurl : targetURL ≠ []) :
    str "url=" ++ QueryEscape targetURL ∈
      queryParts (buildParams L
        (mapSet (copyOptions options) (str "url") (Value.string targetURL))) := by
  have hnd : NodupKeys (mapSet (copyOptions options) (str "url") (Value.string targetURL)) :=
    nodupKeys_mapSet (nodupKeys_copyOptions options) _ _
  rw [queryParts_buildParams L hnd]
  refine List.mem_map.mpr ⟨(str "url", Value.string targetURL), ?_, ?_⟩
  · refine (sortByKey_perm _).symm.subset (List.mem_filter.mpr ⟨mem_mapSet_self _ _ _, ?_⟩)
    have h1 : str "url" ≠ str "format" := by decide
    simp [survives, h1, hurl]
  · have hk : QueryEscape (str "url") = str "url" := by decide
    simp only [renderPair, hk, strValue]
    rfl

/-! ## Reading back what `toQueryString` wrote -/

set_option maxRecDepth 100000 in
theorem escapeByte_no_separator :
    ∀ c : Byte, (38 : Byte) ∉ escapeByte c ∧ (61 : Byte) ∉ escapeByte c := by
  decide

theorem QueryEscape_no_separator (s : GoString) :
    (38 : Byte) ∉ QueryEscape s ∧ (61 : Byte) ∉ QueryEscape s := by
  rw [QueryEscape_eq]
  constructor
  · intro h
    obtain ⟨c, _, hc⟩ := List.mem_flatMap.mp h
    exact (escapeByte_no_separator c).1 hc
  · intro h
    obtain ⟨c, _, hc⟩ := List.mem_flatMap.mp h
    exact (escapeByte_no_separator c).2 hc

theorem QueryUnescape_cons (c : Byte) (rest : GoString) :
    QueryUnescape (c :: rest) =
      if c = 37 then
        match rest with
        | h :: l :: rest2 =>
          if ishex h ∧ ishex l then
            (QueryUnescape rest2).map (fun t => Fin.ofNat (unhex h * 16 + unhex l) :: t)
          else none
        | _ => none
      else if c = 43 then (QueryUnescape rest).map (fun t => 32 :: t)
      else (QueryUnescape rest).map (fun t => c :: t) := by
  cases rest with
  | nil => rfl
  | cons h r2 =>
    cases r2 with
    | nil => rfl
    | cons l r3 => rfl

set_option maxRecDepth 100000 in
theorem unreserved_not_special :
    ∀ c : Byte, shouldEscape c = false → ¬ c = 37 ∧ ¬ c = 43 := by
  decide

set_option maxRecDepth 100000 in
theorem unhex_upperhex :
    ∀ c : Byte, ishex (upperhex (c.val / 16)) = true ∧ ishex (upperhex (c.val % 16)) = true ∧
      (Fin.ofNat (unhex (upperhex (c.val / 16)) * 16 + unhex (upperhex (c.val % 16))) : Byte)
        = c := by
  decide

theorem QueryUnescape_escapeByte (c : Byte) (t : GoString) :
    QueryUnescape (escapeByte c ++ t) = (QueryUnescape t).map (fun u => c :: u) := by
  by_cases hs : c.val = 32
  · have hc : c = 32 := Fin.ext hs
    subst hc
    rw [escapeByte_space, List.singleton_append, QueryUnescape_cons]
    rw [if_neg (by decide), if_pos (by decide)]
  · cases he : shouldEscape c
    · rw [escapeByte_of_not_shouldEscape he, List.singleton_append, QueryUnescape_cons]
      rw [if_neg (unreserved_not_special c he).1, if_neg (unreserved_not_special c he).2]
    · rw [escapeByte_of_shouldEscape he hs]
      have h := unhex_upperhex c
      simp only [List.cons_append, List.nil_append]
      rw [QueryUnescape_cons, if_pos rfl]
      simp only [h.1, h.2.1, and_self, if_true, h.2.2]

theorem QueryUnescape_QueryEscape (s : GoString) : QueryUnescape (QueryEscape s) = some s := by
  rw [QueryEscape_eq]
  induction s with
  | nil => rfl
  | cons c rest ih =>
    rw [List.flatMap_cons, QueryUnescape_escapeByte, ih]
    rfl

theorem splitAmp_cons (c : Byte) (rest : GoString) :
    splitAmp (c :: rest) =
      if c = 38 then [] :: splitAmp rest
      else
        match splitAmp rest with
        | [] => [[c]]
        | p :: ps => (c :: p) :: ps := rfl

theorem splitAmp_plain (p : GoString) (h : (38 : Byte) ∉ p) : splitAmp p = [p] := by
  induction p with
  | nil => rfl
  | cons c rest ih =>
    have hc : ¬ c = 38 := fun e => h (by rw [e]; exact List.mem_cons_self _ _)
    have hr : (38 : Byte) ∉ rest := fun e => h (List.mem_cons_of_mem _ e)
    rw [splitAmp_cons, if_neg hc, ih hr]

theorem splitAmp_append (p t : GoString) (h : (38 : Byte) ∉ p) :
    splitAmp (p ++ 38 :: t) = p :: splitAmp t := by
  induction p with
  | nil => rw [List.nil_append, splitAmp_cons, if_pos rfl]
  | cons c rest ih =>
    have hc : ¬ c = 38 := fun e => h (by rw [e]; exact List.mem_cons_self _ _)
    have hr : (38 : Byte) ∉ rest := fun e => h (List.mem_cons_of_mem _ e)
    rw [List.cons_append, splitAmp_cons, if_neg hc, ih hr]

theorem str_amp : str "&" = [38] := by decide

theorem splitAmp_Join (parts : List GoString) (hne : parts ≠ [])
    (h : ∀ p ∈ parts, (38 : Byte) ∉ p) : splitAmp (Join parts (str "&")) = parts := by
  induction parts with
  | nil => exact absurd rfl hne
  | cons a more ih =>
    cases more with
    | nil => exact splitAmp_plain a (h a (List.mem_cons_self _ _))
    | cons b rest =>
      rw [Join_cons_cons, str_amp, List.append_assoc, List.singleton_append,
        splitAmp_append a _ (h a (List.mem_cons_self _ _)), ← str_amp,
        ih (by simp) (fun p hp => h p (List.mem_cons_of_mem _ hp))]

theorem renderPair_no_amp (L : Stdlib) (e : GoString × Value) :
    (38 : Byte) ∉ renderPair L e := by
  unfold renderPair
  rw [str_eq_sign]
  intro hm
  rcases List.mem_append.mp hm with hm | hm
  · rcases List.mem_append.mp hm with hm | hm
    · exact (QueryEscape_no_separator e.1).1 hm
    · exact absurd (List.mem_singleton.mp hm) (by decide)
  · exact (QueryEscape_no_separator _).1 hm

theorem decodePair_renderPair (L : Stdlib) (e : GoString × Value) :
    decodePair (renderPair L e) = some (e.1, strValue L e.2) := by
  unfold renderPair decodePair
  rw [str_eq_sign, List.append_assoc, List.singleton_append,
    cutFirstEq_append _ _ (QueryEscape_no_separator e.1).2]
  simp only [QueryUnescape_QueryEscape]

theorem decodeParts_map_renderPair (L : Stdlib) (entries : OptMap) :
    decodeParts (entries.map (renderPair L)) =
      some (entries.map (fun e => (e.1, strValue L e.2))) := by
  induction entries with
  | nil => rfl
  | cons e rest ih =>
    rw [List.map_cons, decodeParts, decodePair_renderPair, ih]
    rfl

/-! ## Claims on `toQueryString` -/

/-- C1. Order independence: two well-formed option maps with the same keys and the
same value under every key, whatever the order in which their entries are held or
visited, serialise to the same bytes; the order in which the second loop visits
the keys of `params` has no influence either, sorting any arrangement of them gives
the same slice. -/
theorem C1_order_independence (L : Stdlib) (c : Capture) (m1 m2 : OptMap)
    (h1 : NodupKeys m1) (h2 : NodupKeys m2)
    (h : ∀ k, mapLookup m1 k = mapLookup m2 k) :
    toQueryString L c (some m1) = toQueryString L c (some m2) ∧
    (∀ keys : List GoString, keys.Perm (mapKeys (buildParams L m1)) →
      SortStrings keys = sortedKeys (buildParams L m1)) :=
  ⟨toQueryString_eq_of_perm L c c h1 (perm_of_lookup_eq h1 h2 h),
    fun _ hp => SortStrings_eq_of_perm hp⟩

theorem C1_order_independence_witness :
    NodupKeys [(str "width", Value.int 1920), (str "height", Value.int 1080),
        (str "full", Value.bool true)] ∧
      NodupKeys [(str "full", Value.bool true), (str "width", Value.int 1920),
        (str "height", Value.int 1080)] ∧
      toQueryString sampleStdlib (New (str "key") (str "secret") [])
          (some [(str "width", Value.int 1920), (str "height", Value.int 1080),
            (str "full", Value.bool true)]) =
        toQueryString sampleStdlib (New (str "key") (str "secret") [])
          (some [(str "full", Value.bool true), (str "width", Value.int 1920),
            (str "height", Value.int 1080)]) :=
  ⟨by decide, by decide,
    (C1_order_independence sampleStdlib _ _ _ (by decide) (by decide)
      (fun k => mapLookup_eq_of_perm (by decide) (by decide) k)).1⟩

/-- C2. The pairs of the output stand in the order of the sorted key slice, that
slice is strictly ascending in the byte-wise order of the unescaped keys, and for a
well-formed map it holds each surviving key once; `{width: 1920, height: 1080}`
gives `height=1080&width=1920`. -/
theorem C2_pairs_in_ascending_key_order (L : Stdlib) (c : Capture) :
    (∀ m : OptMap,
      toQueryString L c (some m) =
          Join ((sortedKeys (buildParams L m)).map (fun key =>
            QueryEscape key ++ str "=" ++ QueryEscape (mapGet (buildParams L m) key)))
            (str "&") ∧
        (sortedKeys (buildParams L m)).Sorted (fun a b => strLess a b = true) ∧
        (NodupKeys m →
          (sortedKeys (buildParams L m)).Perm (mapKeys (m.filter survives)))) ∧
    toQueryString L c (some [(str "width", Value.int 1920), (str "height", Value.int 1080)]) =
      str "height=1080&width=1920" := by
  refine ⟨fun m => ⟨rfl, sortedKeys_strict (buildParams_inv L m).1, fun hm => ?_⟩, rfl⟩
  unfold sortedKeys
  rw [buildParams_eq L m hm, mapKeys_paramEntries]
  exact SortStrings_perm _

theorem C2_pairs_in_ascending_key_order_witness :
    NodupKeys [(str "width", Value.int 1920), (str "format", Value.string (str "png")),
        (str "height", Value.int 1080)] ∧
      (sortedKeys (buildParams sampleStdlib
        [(str "width", Value.int 1920), (str "format", Value.string (str "png")),
          (str "height", Value.int 1080)])).Perm
        (mapKeys (List.filter survives
          [(str "width", Value.int 1920), (str "format", Value.string (str "png")),
            (str "height", Value.int 1080)])) :=
  ⟨by decide,
    ((C2_pairs_in_ascending_key_order sampleStdlib (New (str "key") (str "secret") [])).1
      _).2.2 (by decide)⟩

/-- C3. For a well-formed map, an entry is dropped exactly when its key is `format`
or its value is nil or the empty string; every other entry is kept under its key
with its canonical string value, and no key is invented. Integer 0, any float (0.0
included) and boolean false are written to `params` like every other value;
`{width: 0, height: 0, full: false, empty: "", skip: nil}` gives
`full=false&height=0&width=0`. -/
theorem C3_omits_exactly_nil_and_empty (L : Stdlib) (c : Capture) :
    (∀ m : OptMap, NodupKeys m →
      (∀ k v, (k, v) ∈ m →
        (k ∈ sortedKeys (buildParams L m) ↔
          ¬ (k = str "format" ∨ v = Value.nil ∨ v = Value.string []))) ∧
      (∀ k v, (k, v) ∈ m → k ∈ sortedKeys (buildParams L m) →
        mapGet (buildParams L m) k = strValue L v) ∧
      (∀ k, k ∈ sortedKeys (buildParams L m) → ∃ v, (k, v) ∈ m)) ∧
    (∀ (params : GoMap GoString) (k : GoString) (f : Float64), k ≠ str "format" →
      paramsStep L params (k, Value.int 0) = mapSet params k (str "0") ∧
      paramsStep L params (k, Value.float64 f) = mapSet params k (L.formatFloat f) ∧
      paramsStep L params (k, Value.bool false) = mapSet params k (str "false")) ∧
    toQueryString L c (some [(str "width", Value.int 0), (str "height", Value.int 0),
        (str "full", Value.bool false), (str "empty", Value.string (str "")),
        (str "skip", Value.nil)]) =
      str "full=false&height=0&width=0" := by
  refine ⟨fun m hm => ?_, fun params k f hk => ?_, rfl⟩
  · have hkeys : ∀ k, k ∈ sortedKeys (buildParams L m) ↔
        ∃ v, (k, v) ∈ m ∧ survives (k, v) = true := by
      intro k
      rw [mem_sortedKeys, buildParams_eq L m hm, mapKeys_paramEntries]
      simp [mapKeys]
    have huniq : ∀ k v w, (k, v) ∈ m → (k, w) ∈ m → v = w := by
      intro k v w hv hw
      have h1 := mapLookup_of_mem hm hv
      rw [mapLookup_of_mem hm hw] at h1
      exact (Option.some.inj h1).symm
    refine ⟨fun k v hv => ?_, fun k v hv hk => ?_, fun k hk => ?_⟩
    · rw [hkeys]
      constructor
      · rintro ⟨w, hw, hs⟩
        rw [huniq k v w hv hw]
        simpa [survives, not_or] using hs
      · intro h
        exact ⟨v, hv, by simpa [survives, not_or] using h⟩
    · obtain ⟨w, hw, hs⟩ := (hkeys k).mp hk
      have hvw := huniq k v w hv hw
      subst hvw
      have hmem : (k, strValue L v) ∈ paramEntries L m := by
        unfold paramEntries
        exact List.mem_map.mpr ⟨(k, v), List.mem_filter.mpr ⟨hv, hs⟩, rfl⟩
      rw [buildParams_eq L m hm]
      simp [mapGet, mapLookup_of_mem (nodupKeys_paramEntries L hm) hmem]
    · obtain ⟨w, hw, _⟩ := (hkeys k).mp hk
      exact ⟨w, hw⟩
  · refine ⟨?_, ?_, ?_⟩
    · rw [paramsStep_of_survives L params _ (by simp [survives, hk])]
      rfl
    · rw [paramsStep_of_survives L params _ (by simp [survives, hk])]
      rfl
    · rw [paramsStep_of_survives L params _ (by simp [survives, hk])]
      rfl

theorem C3_omits_exactly_nil_and_empty_witness :
    NodupKeys [(str "zero", Value.int 0), (str "empty", Value.string (str ""))] ∧
      ((str "zero", Value.int 0) ∈
          [(str "zero", Value.int 0), (str "empty", Value.string (str ""))] →
        (str "zero" ∈ sortedKeys (buildParams sampleStdlib
            [(str "zero", Value.int 0), (str "empty", Value.string (str ""))]) ↔
          ¬ (str "zero" = str "format" ∨ Value.int 0 = Value.nil ∨
            Value.int 0 = Value.string []))) :=
  ⟨by decide,
    ((C3_omits_exactly_nil_and_empty sampleStdlib (New (str "key") (str "secret") [])).1
      _ (by decide)).1 _ _⟩

/-- C4. The key `format` never reaches the output: it is not among the keys of the
pairs, every pair is rendered from a key other than `format`, and the result is the
one obtained after deleting the `format` entry, whatever value that entry holds. -/
theorem C4_format_never_serialised (L : Stdlib) (c : Capture) (m : OptMap) :
    str "format" ∉ sortedKeys (buildParams L m) ∧
    (∀ part ∈ queryParts (buildParams L m), ∃ key, key ≠ str "format" ∧
      part = QueryEscape key ++ str "=" ++ QueryEscape (mapGet (buildParams L m) key)) ∧
    toQueryString L c (some m) = toQueryString L c (some (mapDelete m (str "format"))) ∧
    (∀ v : Value, toQueryString L c (some (mapSet m (str "format") v)) =
      toQueryString L c (some (mapDelete m (str "format")))) := by
  have hnot : str "format" ∉ sortedKeys (buildParams L m) := by
    rw [mem_sortedKeys]
    exact (buildParams_inv L m).2
  refine ⟨hnot, ?_, (toQueryString_mapDelete L c m).symm, fun v => ?_⟩
  · intro part hpart
    obtain ⟨key, hkey, hrender⟩ := List.mem_map.mp hpart
    refine ⟨key, ?_, hrender.symm⟩
    rintro rfl
    exact hnot hkey
  · rw [← toQueryString_mapDelete L c (mapSet m (str "format") v), mapDelete_mapSet]

/-- C5. For a well-formed map the output is the surviving entries, in ascending key
order, each rendered as escaped key, `=`, escaped canonical string value, joined
with `&`; escaping rewrites a string byte by byte, leaving ASCII letters, digits,
`-`, `_`, `.`, `~` as they are, turning a space into `+` and any other byte into `%`
and its two uppercase hexadecimal digits; `{userAgent: "Custom Agent (v1.0)"}` gives
`userAgent=Custom+Agent+%28v1.0%29`. -/
theorem C5_rendering_and_escaping (L : Stdlib) (c : Capture) :
    (∀ m : OptMap, NodupKeys m →
      toQueryString L c (some m) =
        Join ((sortByKey (m.filter survives)).map (fun e =>
          QueryEscape e.1 ++ str "=" ++ QueryEscape (strValue L e.2))) (str "&")) ∧
    (∀ s : GoString, QueryEscape s = s.flatMap escapeByte) ∧
    toQueryString L c (some [(str "userAgent", Value.string (str "Custom Agent (v1.0)"))]) =
      str "userAgent=Custom+Agent+%28v1.0%29" :=
  ⟨fun _ hm => toQueryString_eq L c hm, QueryEscape_eq, rfl⟩

theorem C5_rendering_and_escaping_witness :
    NodupKeys [(str "b c", Value.bool true), (str "a", Value.string (str "x&y"))] ∧
      toQueryString sampleStdlib (New (str "key") (str "secret") [])
          (some [(str "b c", Value.bool true), (str "a", Value.string (str "x&y"))]) =
        Join ((sortByKey (List.filter survives
            [(str "b c", Value.bool true), (str "a", Value.string (str "x&y"))])).map
          (fun e => QueryEscape e.1 ++ str "=" ++ QueryEscape (strValue sampleStdlib e.2)))
          (str "&") :=
  ⟨by decide,
    (C5_rendering_and_escaping sampleStdlib (New (str "key") (str "secret") [])).1 _
      (by decide)⟩


/-! ## Claims on `generateToken` and `buildURL` -/

/-- C6. The token is the hexadecimal encoding, with the lowercase digit table, of
the digest of the bytes of the secret followed at once by the query; it has exactly
32 characters, each one of `0`-`9`, `a`-`f`, is not empty, and is determined by the
secret and the query alone. -/
theorem C6_token_hex_of_digest (L : Stdlib) (c : Capture) (secret query : GoString) :
    generateToken L c secret query = EncodeToString (L.md5Sum (secret ++ query)).val ∧
    (generateToken L c secret query).length = 32 ∧
    generateToken L c secret query ≠ [] ∧
    (∀ b ∈ generateToken L c secret query, b ∈ str "0123456789abcdef") ∧
    (∀ c2 : Capture, generateToken L c2 secret query = generateToken L c secret query) := by
  have hlen : (generateToken L c secret query).length = 32 := by
    unfold generateToken
    rw [EncodeToString_length, (L.md5Sum (secret ++ query)).property]
  refine ⟨rfl, hlen, ?_, EncodeToString_hex _, fun _ => rfl⟩
  intro h
  rw [h] at hlen
  cases hlen

/-- C7. With a non-empty key, secret and target URL and a well-formed option map,
each of the four builders returns, with a nil error, host, key, token and kind
joined by `/` and followed by `?` and the query when the query is not empty, where
the query serialises the options with `url` set to the target and the token is
derived from the secret and that whole query. -/
theorem C7_signed_url_shape (L : Stdlib) (c : Capture) (targetURL : GoString)
    (options : RequestOptions) (hkey : c.Key ≠ []) (hsecret : c.Secret ≠ [])
    (hurl : targetURL ≠ []) (hwf : NodupKeys (options.getD [])) :
    BuildImageURL L c targetURL options =
      (signedURL L c (str "image") targetURL (options.getD []), none) ∧
    BuildPDFURL L c targetURL options =
      (signedURL L c (str "pdf") targetURL (options.getD []), none) ∧
    BuildContentURL L c targetURL options =
      (signedURL L c (str "content") targetURL (options.getD []), none) ∧
    BuildMetadataURL L c targetURL options =
      (signedURL L c (str "metadata") targetURL (options.getD []), none) := by
  unfold BuildImageURL BuildPDFURL BuildContentURL BuildMetadataURL
  simp only [buildURL_ok L c _ targetURL options hkey hsecret hurl, copyOptions_eq options hwf]
  exact ⟨rfl, rfl, rfl, rfl⟩

theorem C7_signed_url_shape_witness :
    (New (str "test_key") (str "test_secret") []).Key ≠ [] ∧
      (New (str "test_key") (str "test_secret") []).Secret ≠ [] ∧
      str "https://example.com" ≠ [] ∧
      NodupKeys ((some [(str "width", Value.int 1920)] : RequestOptions).getD []) ∧
      BuildImageURL sampleStdlib (New (str "test_key") (str "test_secret") [])
          (str "https://example.com") (some [(str "width", Value.int 1920)]) =
        (str ("https://cdn.capture.page/test_key/00000000000000000000000000000000/image" ++
          "?url=https%3A%2F%2Fexample.com&width=1920"), none) :=
  ⟨by decide, by decide, by decide, by decide,
    (C7_signed_url_shape sampleStdlib (New (str "test_key") (str "test_secret") [])
      (str "https://example.com") (some [(str "width", Value.int 1920)])
      (by decide) (by decide) (by decide) (by decide)).1.trans (by decide)⟩


/-- C8. Each of the four builders fails exactly when the key, the secret or the
target URL is empty; a failing call returns the empty string as URL, with the
message `key and secret are required` whenever the key or the secret is empty, and
`url is required` when both are present and only the target URL is empty. -/
theorem C8_failure_conditions (L : Stdlib) (c : Capture) (targetURL : GoString)
    (options : RequestOptions) :
    ∀ build ∈ [BuildImageURL L, BuildPDFURL L, BuildContentURL L, BuildMetadataURL L],
      ((build c targetURL options).2 ≠ none ↔
        (c.Key = [] ∨ c.Secret = [] ∨ targetURL = [])) ∧
      ((build c targetURL options).2 ≠ none → (build c targetURL options).1 = []) ∧
      (c.Key = [] ∨ c.Secret = [] →
        build c targetURL options = ([], some (str "key and secret are required"))) ∧
      (c.Key ≠ [] → c.Secret ≠ [] → targetURL = [] →
        build c targetURL options = ([], some (str "url is required"))) := by
  have hgen : ∀ rt : RequestType,
      ((buildURL L c rt targetURL options).2 ≠ none ↔
        (c.Key = [] ∨ c.Secret = [] ∨ targetURL = [])) ∧
      ((buildURL L c rt targetURL options).2 ≠ none →
        (buildURL L c rt targetURL options).1 = []) ∧
      (c.Key = [] ∨ c.Secret = [] →
        buildURL L c rt targetURL options = ([], some (str "key and secret are required"))) ∧
      (c.Key ≠ [] → c.Secret ≠ [] → targetURL = [] →
        buildURL L c rt targetURL options = ([], some (str "url is required"))) := by
    intro rt
    by_cases hk : c.Key = [] ∨ c.Secret = []
    · have hres : buildURL L c rt targetURL options =
          ([], some (str "key and secret are required")) := by
        unfold buildURL
        rw [if_pos hk]
      refine ⟨?_, fun _ => by rw [hres], fun _ => hres, fun h1 h2 _ => ?_⟩
      · rw [hres]
        simp only [ne_eq, reduceCtorEq, not_false_eq_true, true_iff]
        tauto
      · rcases hk with hk | hk
        · exact absurd hk h1
        · exact absurd hk h2
    · by_cases hu : targetURL = []
      · have hres : buildURL L c rt targetURL options = ([], some (str "url is required")) := by
          unfold buildURL
          rw [if_neg hk, if_pos hu]
        refine ⟨?_, fun _ => by rw [hres], fun h => absurd h hk, fun _ _ _ => hres⟩
        rw [hres]
        simp only [ne_eq, reduceCtorEq, not_false_eq_true, true_iff]
        exact Or.inr (Or.inr hu)
      · have hk2 : c.Key ≠ [] ∧ c.Secret ≠ [] := not_or.mp hk
        have hres := buildURL_ok L c rt targetURL options hk2.1 hk2.2 hu
        refine ⟨?_, fun h => ?_, fun h => absurd h hk, fun _ _ h => absurd h hu⟩
        · rw [hres]
          simp only [ne_eq, not_true_eq_false, false_iff]
          tauto
        · rw [hres] at h
          exact absurd rfl h
  intro build hb
  simp only [List.mem_cons, List.mem_singleton, List.not_mem_nil, or_false] at hb
  rcases hb with hb | hb | hb | hb <;> subst hb
  · exact hgen RequestTypeImage
  · exact hgen RequestTypePDF
  · exact hgen RequestTypeContent
  · exact hgen RequestTypeMetadata

theorem C8_failure_conditions_witness :
    ((New (str "test_key") (str "") []).Key = [] ∨
        (New (str "test_key") (str "") []).Secret = []) ∧
      BuildPDFURL sampleStdlib (New (str "test_key") (str "") []) (str "https://example.com")
          (some []) =
        ([], some (str "key and secret are required")) :=
  ⟨by decide,
    (C8_failure_conditions sampleStdlib (New (str "test_key") (str "") [])
      (str "https://example.com") (some []) (BuildPDFURL sampleStdlib)
      (by simp)).2.2.1 (by decide)⟩

/-- C9. Edge mode changes the host and nothing else: a client made with `WithEdge`
and one made without either fail in the same way, or return the edge host and the
standard host followed by one and the same suffix of key, token, kind and query. -/
theorem C9_edge_changes_only_host (L : Stdlib) (key secret : GoString) (rt : RequestType)
    (targetURL : GoString) (options : RequestOptions) :
    ((buildURL L (New key secret [WithEdge]) rt targetURL options).2 ≠ none ∧
      buildURL L (New key secret [WithEdge]) rt targetURL options =
        buildURL L (New key secret []) rt targetURL options) ∨
    (∃ query token suffix : GoString,
      query = toQueryString L (New key secret [])
        (some (mapSet (copyOptions options) (str "url") (Value.string targetURL))) ∧
      token = generateToken L (New key secret []) secret query ∧
      suffix = str "/" ++ key ++ str "/" ++ token ++ str "/" ++ rt ++
        (if query = [] then [] else str "?" ++ query) ∧
      buildURL L (New key secret [WithEdge]) rt targetURL options =
        (str "https://edge.capture.page" ++ suffix, none) ∧
      buildURL L (New key secret []) rt targetURL options =
        (str "https://cdn.capture.page" ++ suffix, none)) := by
  by_cases hk : key = [] ∨ secret = []
  · left
    have h1 : buildURL L (New key secret [WithEdge]) rt targetURL options =
        ([], some (str "key and secret are required")) := by
      unfold buildURL
      exact if_pos (show (New key secret [WithEdge]).Key = [] ∨
        (New key secret [WithEdge]).Secret = [] from hk)
    have h2 : buildURL L (New key secret []) rt targetURL options =
        ([], some (str "key and secret are required")) := by
      unfold buildURL
      exact if_pos (show (New key secret []).Key = [] ∨
        (New key secret []).Secret = [] from hk)
    rw [h1, h2]
    exact ⟨by simp, rfl⟩
  · by_cases hu : targetURL = []
    · left
      have h1 : buildURL L (New key secret [WithEdge]) rt targetURL options =
          ([], some (str "url is required")) := by
        unfold buildURL
        rw [if_neg (show ¬ ((New key secret [WithEdge]).Key = [] ∨
          (New key secret [WithEdge]).Secret = []) from hk), if_pos hu]
      have h2 : buildURL L (New key secret []) rt targetURL options =
          ([], some (str "url is required")) := by
        unfold buildURL
        rw [if_neg (show ¬ ((New key secret []).Key = [] ∨
          (New key secret []).Secret = []) from hk), if_pos hu]
      rw [h1, h2]
      exact ⟨by simp, rfl⟩
    · right
      have hk2 : key ≠ [] ∧ secret ≠ [] := not_or.mp hk
      refine ⟨_, _, _, rfl, rfl, rfl, ?_, ?_⟩
      · rw [buildURL_ok L (New key secret [WithEdge]) rt targetURL options hk2.1 hk2.2 hu]
        simp [signedURL, New, WithEdge, toQueryString, generateToken]
      · rw [buildURL_ok L (New key secret []) rt targetURL options hk2.1 hk2.2 hu]
        simp [signedURL, New, toQueryString, generateToken]

/-- C10. Building a URL writes to no object of the caller: after `buildURL` has run
on a store, with any request kind (so through any of the four builders) and whether
it fails or succeeds, the client is the same in every field, every map object that
existed before the call holds the entries it held (the map the caller passed among
them, so no `url` entry was added to it), a failing call leaves the whole store as
it was, and the pair returned is the one `buildURL` computes from the contents of
the caller's map. -/
theorem C10_caller_state_unchanged (L : Stdlib) (requestType targetURL : GoString)
    (options : Option Nat) (s : Store) :
    (runBuildURL L requestType targetURL options s).2.client = s.client ∧
    (runBuildURL L requestType targetURL options s).2.maps.take s.maps.length = s.maps ∧
    (∀ ref, ref < s.maps.length →
      (runBuildURL L requestType targetURL options s).2.read ref = s.read ref ∧
      mapLookup ((runBuildURL L requestType targetURL options s).2.read ref) (str "url") =
        mapLookup (s.read ref) (str "url")) ∧
    ((runBuildURL L requestType targetURL options s).1.2 ≠ none →
      (runBuildURL L requestType targetURL options s).2 = s) ∧
    (runBuildURL L requestType targetURL options s).1 =
      buildURL L s.client requestType targetURL (options.map s.read) := by
  by_cases h : s.client.Key = [] ∨ s.client.Secret = [] ∨ targetURL = []
  · rw [runBuildURL_fail L requestType targetURL options s h]
    exact ⟨rfl, by simp, fun _ _ => ⟨rfl, rfl⟩, fun _ => rfl, rfl⟩
  · have h3 : s.client.Key ≠ [] ∧ s.client.Secret ≠ [] ∧ targetURL ≠ [] := by
      simpa [not_or] using h
    rw [runBuildURL_ok L requestType targetURL options s h3.1 h3.2.1 h3.2.2]
    have hread : ∀ ref, ref < s.maps.length →
        Store.read ⟨s.client, s.maps ++
          [mapSet (copyOptions (options.map s.read)) (str "url") (Value.string targetURL)]⟩
          ref = s.read ref := by
      intro ref href
      simp only [Store.read, getD_append_fresh]
      rw [if_neg (Nat.ne_of_lt href)]
    refine ⟨rfl, by simp, fun ref href => ?_, fun hne => ?_, ?_⟩
    · rw [hread ref href]
      exact ⟨rfl, rfl⟩
    · exact absurd rfl hne
    · unfold buildURL
      rw [if_neg (by tauto), if_neg h3.2.2]

theorem C10_caller_state_unchanged_witness :
    (0 < (Store.mk (New (str "test_key") (str "test_secret") [])
        [[(str "width", Value.int 1920)]]).maps.length) ∧
      (runBuildURL sampleStdlib RequestTypeImage (str "https://example.com") (some 0)
          (Store.mk (New (str "test_key") (str "test_secret") [])
            [[(str "width", Value.int 1920)]])).2.read 0 =
        [(str "width", Value.int 1920)] :=
  ⟨by decide,
    ((C10_caller_state_unchanged sampleStdlib RequestTypeImage (str "https://example.com")
      (some 0) (Store.mk (New (str "test_key") (str "test_secret") [])
        [[(str "width", Value.int 1920)]])).2.2.1 0 (by decide)).1⟩


/-! ## Claims on `parseOptions` -/

/-- C11. A token is split at its first `=` only: when the text before the first `=`
is not empty, the option key is exactly that text and the value stored under it is
derived from the whole text after that `=`, later `=` included;
`selector=div.class=value` gives the key `selector` with the string
`div.class=value`. -/
theorem C11_split_on_first_equals (S : Strconv) :
    (∀ (key value : GoString) (rest : List GoString) (opts : OptMap),
      key ≠ [] → (61 : Byte) ∉ key →
        SplitN (key ++ str "=" ++ value) = [key, value] ∧
        parseOptionsLoop S ((key ++ str "=" ++ value) :: rest) opts =
          parseOptionsLoop S rest (mapSet opts key (typedValue S value)) ∧
        parseOptions S [key ++ str "=" ++ value] =
          (some [(key, typedValue S value)], none)) ∧
    parseOptions S [str "selector=div.class=value"] =
      (some [(str "selector", Value.string (str "div.class=value"))], none) := by
  refine ⟨fun key value rest opts hkey hno => ⟨?_, ?_, ?_⟩, rfl⟩
  · rw [str_eq_sign, List.append_assoc]
    simp only [SplitN, List.singleton_append, cutFirstEq_append key value hno]
  · exact parseOptionsLoop_valid S key value rest opts hkey hno
  · unfold parseOptions
    rw [parseOptionsLoop_valid S key value [] [] hkey hno]
    rfl

theorem C11_split_on_first_equals_witness :
    str "a" ≠ [] ∧ (61 : Byte) ∉ str "a" ∧
      parseOptions sampleStrconv [str "a" ++ str "=" ++ str "b=c=d"] =
        (some [(str "a", typedValue sampleStrconv (str "b=c=d"))], none) :=
  ⟨by decide, by decide,
    ((C11_split_on_first_equals sampleStrconv).1 (str "a") (str "b=c=d") [] []
      (by decide) (by decide)).2.2⟩

/-- C12. `parseOptions` fails exactly when some token has no `=` or starts with `=`;
it then returns the nil map and the invalid-option-format error, whose message holds
the text of the first such token of the input; on every other input it succeeds, and
on the empty list it returns the empty map. -/
theorem C12_failure_exactly_on_invalid_token (S : Strconv) (options : List GoString) :
    ((parseOptions S options).2 ≠ none ↔
      ∃ t ∈ options, (61 : Byte) ∉ t ∨ t.head? = some 61) ∧
    (∀ good t rest, options = good ++ t :: rest →
      (∀ g ∈ good, ¬ ((61 : Byte) ∉ g ∨ g.head? = some 61)) →
      ((61 : Byte) ∉ t ∨ t.head? = some 61) →
        parseOptions S options =
          (none, some (str "invalid option format: " ++ t ++ str " (expected key=value)")) ∧
        t <:+: str "invalid option format: " ++ t ++ str " (expected key=value)") ∧
    ((∀ t ∈ options, ¬ ((61 : Byte) ∉ t ∨ t.head? = some 61)) →
      ∃ opts, parseOptions S options = (some opts, none)) ∧
    parseOptions S [] = (some [], none) := by
  have hbad : ∀ t : GoString,
      ((61 : Byte) ∉ t ∨ t.head? = some 61) ↔ invalidToken t = true := by
    intro t
    simp [invalidToken]
  have hgoodT : ∀ t : GoString,
      ¬ ((61 : Byte) ∉ t ∨ t.head? = some 61) → invalidToken t = false := by
    intro t h
    cases hv : invalidToken t with
    | false => rfl
    | true => exact absurd ((hbad t).mpr hv) h
  have hok : (∀ t ∈ options, ¬ ((61 : Byte) ∉ t ∨ t.head? = some 61)) →
      ∃ opts, parseOptions S options = (some opts, none) := fun h =>
    parseOptionsLoop_ok S options [] (fun t ht => hgoodT t (h t ht))
  have hfail : ∀ good t rest, options = good ++ t :: rest →
      (∀ g ∈ good, ¬ ((61 : Byte) ∉ g ∨ g.head? = some 61)) →
      ((61 : Byte) ∉ t ∨ t.head? = some 61) →
        parseOptions S options =
          (none, some (str "invalid option format: " ++ t ++ str " (expected key=value)")) := by
    intro good t rest hsplit hgood ht
    unfold parseOptions
    rw [hsplit]
    exact parseOptionsLoop_first_invalid S good t rest []
      (fun g hg => hgoodT g (hgood g hg)) ((hbad t).mp ht)
  refine ⟨⟨fun herr => ?_, fun hex => ?_⟩, fun good t rest hsplit hgood ht =>
    ⟨hfail good t rest hsplit hgood ht, ⟨str "invalid option format: ",
      str " (expected key=value)", rfl⟩⟩, hok, rfl⟩
  · by_contra hno
    have hall : ∀ t ∈ options, ¬ ((61 : Byte) ∉ t ∨ t.head? = some 61) :=
      fun t ht hb => hno ⟨t, ht, hb⟩
    obtain ⟨opts, hres⟩ := hok hall
    rw [hres] at herr
    exact herr rfl
  · obtain ⟨t, ht, hb⟩ := hex
    obtain ⟨good, t2, rest, hsplit, hgood, ht2⟩ :=
      first_invalid_split options ⟨t, ht, (hbad t).mp hb⟩
    rw [hfail good t2 rest hsplit
      (fun g hg hb2 => by
        have h1 := (hbad g).mp hb2
        rw [hgood g hg] at h1
        cases h1)
      ((hbad t2).mpr ht2)]
    simp

theorem C12_failure_exactly_on_invalid_token_witness :
    [str "vw=1920", str "invalid", str "=value"] =
        [str "vw=1920"] ++ str "invalid" :: [str "=value"] ∧
      parseOptions sampleStrconv [str "vw=1920", str "invalid", str "=value"] =
        (none, some (str "invalid option format: invalid (expected key=value)")) :=
  ⟨rfl,
    ((C12_failure_exactly_on_invalid_token sampleStrconv
      [str "vw=1920", str "invalid", str "=value"]).2.1
      [str "vw=1920"] (str "invalid") [str "=value"] rfl (by decide) (by decide)).1⟩

/-- C13. The value of a token is typed by a fixed precedence: the integer when `Atoi`
accepts it, otherwise the float when `ParseFloat` accepts it, otherwise the boolean
when `ParseBool` accepts it, otherwise the unchanged string. `0` and `1` become
integers although `ParseBool` accepts them, `1920` becomes the integer 1920, `1.5` is
no integer and becomes the float `ParseFloat` returns for it, `true` becomes the
boolean true and `png` stays a string. -/
theorem C13_typing_precedence (S : Strconv) :
    (∀ value : GoString,
      (∀ n, Atoi value = some n → typedValue S value = Value.int n) ∧
      (∀ f, Atoi value = none → ParseFloat S value = some f →
        typedValue S value = Value.float64 f) ∧
      (∀ b, Atoi value = none → ParseFloat S value = none → ParseBool value = some b →
        typedValue S value = Value.bool b) ∧
      (Atoi value = none → ParseFloat S value = none → ParseBool value = none →
        typedValue S value = Value.string value)) ∧
    (typedValue S (str "0") = Value.int 0 ∧ ParseBool (str "0") = some false) ∧
    (typedValue S (str "1") = Value.int 1 ∧ ParseBool (str "1") = some true) ∧
    typedValue S (str "1920") = Value.int 1920 ∧
    (Atoi (str "1.5") = none ∧
      ∀ f, S.parseFloat (str "1.5") = some f → typedValue S (str "1.5") = Value.float64 f) ∧
    typedValue S (str "true") = Value.bool true ∧
    typedValue S (str "png") = Value.string (str "png") ∧
    parseOptions S [str "vw=1920", str "fullPage=true", str "format=png"] =
      (some [(str "vw", Value.int 1920), (str "fullPage", Value.bool true),
        (str "format", Value.string (str "png"))], none) := by
  refine ⟨fun value => ⟨fun n h => ?_, fun f h1 h2 => ?_, fun b h1 h2 h3 => ?_,
    fun h1 h2 h3 => ?_⟩, ⟨rfl, rfl⟩, ⟨rfl, rfl⟩, rfl, ⟨rfl, fun f hf => ?_⟩, rfl, rfl, rfl⟩
  · simp [typedValue, h]
  · simp [typedValue, h1, h2]
  · simp [typedValue, h1, h2, h3]
  · simp [typedValue, h1, h2, h3]
  · have hA : Atoi (str "1.5") = none := rfl
    have hF : ParseFloat S (str "1.5") = some f := by
      have hs : floatShaped (str "1.5") = true := rfl
      simp [ParseFloat, hs, hf]
    simp [typedValue, hA, hF]

theorem C13_typing_precedence_witness :
    Atoi (str "1.5") = none ∧
      ParseFloat sampleStrconv (str "1.5") = some ⟨0x3FF8000000000000⟩ ∧
      typedValue sampleStrconv (str "1.5") = Value.float64 ⟨0x3FF8000000000000⟩ :=
  ⟨by decide, by decide,
    ((C13_typing_precedence sampleStrconv).1 (str "1.5")).2.1 _ (by decide) (by decide)⟩

/-- C14, as the code has it. For a token value that is neither an integer nor a
float, `parseOptions` stores a boolean exactly when the value is one of the strings
`strconv.ParseBool` accepts: true for `t`, `T`, `TRUE`, `true`, `True`, false for
`f`, `F`, `FALSE`, `false`, `False`; every other such value is stored as the
unchanged string. -/
theorem C14_boolean_values_amended (S : Strconv) (value : GoString)
    (hint : Atoi value = none) (hfloat : ParseFloat S value = none) :
    (value ∈ [str "t", str "T", str "TRUE", str "true", str "True"] →
      typedValue S value = Value.bool true) ∧
    (value ∈ [str "f", str "F", str "FALSE", str "false", str "False"] →
      typedValue S value = Value.bool false) ∧
    (value ∉ [str "t", str "T", str "TRUE", str "true", str "True"] →
      value ∉ [str "f", str "F", str "FALSE", str "false", str "False"] →
      typedValue S value = Value.string value) := by
  have hone : value ≠ str "1" := by
    rintro rfl
    exact absurd hint (by decide)
  have hzero : value ≠ str "0" := by
    rintro rfl
    exact absurd hint (by decide)
  refine ⟨fun h => ?_, fun h => ?_, fun h1 h2 => ?_⟩
  · have hb : ParseBool value = some true := by
      unfold ParseBool
      rw [if_pos (List.mem_cons_of_mem _ h)]
    simp [typedValue, hint, hfloat, hb]
  · have hb : ParseBool value = some false := by
      simp only [List.mem_cons, List.mem_singleton, List.not_mem_nil, or_false] at h
      rcases h with h | h | h | h | h <;> subst h <;> rfl
    simp [typedValue, hint, hfloat, hb]
  · have hb : ParseBool value = none := by
      unfold ParseBool
      rw [if_neg, if_neg]
      · intro hm
        rcases List.mem_cons.mp hm with hm | hm
        · exact hzero hm
        · exact h2 hm
      · intro hm
        rcases List.mem_cons.mp hm with hm | hm
        · exact hone hm
        · exact h1 hm
    simp [typedValue, hint, hfloat, hb]

theorem C14_boolean_values_amended_witness :
    Atoi (str "T") = none ∧ ParseFloat sampleStrconv (str "T") = none ∧
      typedValue sampleStrconv (str "T") = Value.bool true :=
  ⟨by decide, by decide,
    (C14_boolean_values_amended sampleStrconv (str "T") (by decide) (by decide)).1
      (by decide)⟩

/-- C14 as stated fails in both directions: `t` is neither an integer nor a float and
differs from `true` and `false` even ignoring case, yet it is stored as the boolean
true; `TrUe` equals `true` ignoring case, yet it is stored as a string. Both hold for
every `ParseFloat`. -/
theorem C14_boolean_values_counterexample :
    (Atoi (str "t") = none ∧ (∀ S : Strconv, ParseFloat S (str "t") = none) ∧
      equalFold (str "t") (str "true") = false ∧
      equalFold (str "t") (str "false") = false ∧
      (∀ S : Strconv, typedValue S (str "t") = Value.bool true)) ∧
    (Atoi (str "TrUe") = none ∧ (∀ S : Strconv, ParseFloat S (str "TrUe") = none) ∧
      equalFold (str "TrUe") (str "true") = true ∧
      (∀ S : Strconv, typedValue S (str "TrUe") = Value.string (str "TrUe"))) :=
  ⟨⟨by decide, fun _ => rfl, by decide, by decide, fun _ => rfl⟩,
    ⟨by decide, fun _ => rfl, by decide, fun _ => rfl⟩⟩


/-! ## Claims on the `format` entry, the animated kind and the fetchers -/

/-- C15. What the code does on the input of the test "with format": for
`{width: 1920, format: "png"}` it returns `width=1920`, the `format` entry is skipped
by the first loop, and that differs from the `format=png&width=1920` the test
expects. -/
theorem C15_format_entry_dropped (L : Stdlib) (c : Capture) :
    toQueryString L c
        (some [(str "width", Value.int 1920), (str "format", Value.string (str "png"))]) =
      str "width=1920" ∧
    toQueryString L c
        (some [(str "width", Value.int 1920), (str "format", Value.string (str "png"))]) ≠
      str "format=png&width=1920" := by
  have h : toQueryString L c
      (some [(str "width", Value.int 1920), (str "format", Value.string (str "png"))]) =
      str "width=1920" := rfl
  refine ⟨h, ?_⟩
  rw [h]
  decide

/-- C16. The animated builder, as the specification gives it, goes through `buildURL`
with the kind `animated`: it fails exactly when the four other builders fail, and
with a non-empty key, secret and target URL and a well-formed option map it returns
the signed URL whose path segment is `animated`. -/
theorem C16_animated_builder (L : Stdlib) (c : Capture) (targetURL : GoString)
    (options : RequestOptions) :
    BuildAnimatedURL L c targetURL options =
      buildURL L c (str "animated") targetURL options ∧
    ((BuildAnimatedURL L c targetURL options).2 ≠ none ↔
      (BuildImageURL L c targetURL options).2 ≠ none) ∧
    (c.Key ≠ [] → c.Secret ≠ [] → targetURL ≠ [] → NodupKeys (options.getD []) →
      BuildAnimatedURL L c targetURL options =
        (signedURL L c (str "animated") targetURL (options.getD []), none)) := by
  refine ⟨rfl, ?_, fun hkey hsecret hurl hwf => ?_⟩
  · unfold BuildAnimatedURL BuildImageURL
    rw [buildURL_err_iff, buildURL_err_iff]
  · unfold BuildAnimatedURL
    rw [buildURL_ok L c _ targetURL options hkey hsecret hurl, copyOptions_eq options hwf]
    rfl

theorem C16_animated_builder_witness :
    (New (str "test_key") (str "test_secret") []).Key ≠ [] ∧
      (New (str "test_key") (str "test_secret") []).Secret ≠ [] ∧
      str "https://example.com" ≠ [] ∧
      NodupKeys ((some [(str "duration", Value.int 5)] : RequestOptions).getD []) ∧
      BuildAnimatedURL sampleStdlib (New (str "test_key") (str "test_secret") [])
          (str "https://example.com") (some [(str "duration", Value.int 5)]) =
        (str ("https://cdn.capture.page/test_key/00000000000000000000000000000000/animated" ++
          "?duration=5&url=https%3A%2F%2Fexample.com"), none) :=
  ⟨by decide, by decide, by decide, by decide,
    ((C16_animated_builder sampleStdlib (New (str "test_key") (str "test_secret") [])
      (str "https://example.com") (some [(str "duration", Value.int 5)])).2.2
      (by decide) (by decide) (by decide) (by decide)).trans (by decide)⟩

/-- C17, as the code has it. When the URL was built and the transport returned a
response with status code `s`, `FetchImage` and `FetchPDF` return the body with a nil
error when `s` is 200 and the body was read without error; for every other `s`,
the other 2xx codes included, they return the nil slice and the error
`HTTP error: ` followed by `s` in decimal. -/
theorem C17_fetch_status_amended (L : Stdlib) (T : Transport) (c : Capture)
    (targetURL : GoString) (options : RequestOptions) (resp : Response) :
    (∀ url, BuildImageURL L c targetURL options = (url, none) →
      T c.Client url = GetResult.response resp →
        (resp.StatusCode = 200 → resp.ReadErr = none →
          FetchImage L T c targetURL options = (some resp.Body, none)) ∧
        (resp.StatusCode ≠ 200 →
          FetchImage L T c targetURL options =
            (none, some (str "HTTP error: " ++ FormatInt resp.StatusCode)))) ∧
    (∀ url, BuildPDFURL L c targetURL options = (url, none) →
      T c.Client url = GetResult.response resp →
        (resp.StatusCode = 200 → resp.ReadErr = none →
          FetchPDF L T c targetURL options = (some resp.Body, none)) ∧
        (resp.StatusCode ≠ 200 →
          FetchPDF L T c targetURL options =
            (none, some (str "HTTP error: " ++ FormatInt resp.StatusCode)))) := by
  refine ⟨fun url hb ht => ⟨fun hs hr => ?_, fun hs => ?_⟩,
    fun url hb ht => ⟨fun hs hr => ?_, fun hs => ?_⟩⟩
  · simp [FetchImage, hb, ht, hs, hr]
  · simp [FetchImage, hb, ht, hs]
  · simp [FetchPDF, hb, ht, hs, hr]
  · simp [FetchPDF, hb, ht, hs]

theorem C17_fetch_status_amended_witness :
    FetchImage sampleStdlib (fun _ _ => GetResult.response ⟨200, str "PNG", none⟩)
        (New (str "test_key") (str "test_secret") []) (str "https://example.com")
        (some []) =
      (some (str "PNG"), none) :=
  ((C17_fetch_status_amended sampleStdlib
    (fun _ _ => GetResult.response ⟨200, str "PNG", none⟩)
    (New (str "test_key") (str "test_secret") []) (str "https://example.com") (some [])
    ⟨200, str "PNG", none⟩).1 _ rfl rfl).1 rfl rfl

/-- C17 as stated fails at status 204: the URL is built, the status is a 2xx code
and the body was read without error, yet `FetchImage` and `FetchPDF` return the nil
slice and the error `HTTP error: 204`. -/
theorem C17_fetch_status_counterexample :
    (BuildImageURL sampleStdlib (New (str "test_key") (str "test_secret") [])
        (str "https://example.com") (some [])).2 = none ∧
    ((200 : Int) ≤ 204 ∧ (204 : Int) < 300) ∧
    FetchImage sampleStdlib (fun _ _ => GetResult.response ⟨204, str "PNG", none⟩)
        (New (str "test_key") (str "test_secret") []) (str "https://example.com")
        (some []) =
      (none, some (str "HTTP error: 204")) ∧
    FetchPDF sampleStdlib (fun _ _ => GetResult.response ⟨204, str "PDF", none⟩)
        (New (str "test_key") (str "test_secret") []) (str "https://example.com")
        (some []) =
      (none, some (str "HTTP error: 204")) := by
  refine ⟨by decide, by decide, by decide, by decide⟩


/-! ## Claims on the signed query -/

/-- C18. Whenever `buildURL` succeeds, the query it signs is not empty and holds the
pair `url=` followed by the escaped target URL; the URL returned is host, key, token
and kind followed by `?` and that query, so it contains `?` and is never the form
without a query. -/
theorem C18_signed_query_never_empty (L : Stdlib) (c : Capture) (rt targetURL : GoString)
    (options : RequestOptions) (hok : (buildURL L c rt targetURL options).2 = none) :
    signedQuery L c targetURL options ≠ [] ∧
    str "url=" ++ QueryEscape targetURL ∈
      queryParts (buildParams L
        (mapSet (copyOptions options) (str "url") (Value.string targetURL))) ∧
    str "url=" ++ QueryEscape targetURL <:+: signedQuery L c targetURL options ∧
    (buildURL L c rt targetURL options).1 =
      (if c.UseEdge then c.EdgeURL else c.APIURL) ++ str "/" ++ c.Key ++ str "/" ++
        generateToken L c c.Secret (signedQuery L c targetURL options) ++ str "/" ++ rt ++
        (str "?" ++ signedQuery L c targetURL options) ∧
    (63 : Byte) ∈ (buildURL L c rt targetURL options).1 ∧
    (buildURL L c rt targetURL options).1 ≠
      (if c.UseEdge then c.EdgeURL else c.APIURL) ++ str "/" ++ c.Key ++ str "/" ++
        generateToken L c c.Secret (signedQuery L c targetURL options) ++ str "/" ++ rt := by
  have hguards : ¬ (c.Key = [] ∨ c.Secret = [] ∨ targetURL = []) := by
    intro h
    exact (buildURL_err_iff L c rt targetURL options).mpr h hok
  have hkey : c.Key ≠ [] := fun e => hguards (Or.inl e)
  have hsecret : c.Secret ≠ [] := fun e => hguards (Or.inr (Or.inl e))
  have hurl : targetURL ≠ [] := fun e => hguards (Or.inr (Or.inr e))
  have hmem := url_part_mem L targetURL options hurl
  have hinfix : str "url=" ++ QueryEscape targetURL <:+: signedQuery L c targetURL options :=
    Join_infix (str "&") _ _ hmem
  have hne : signedQuery L c targetURL options ≠ [] := by
    intro hempty
    rw [hempty] at hinfix
    have := List.eq_nil_of_infix_nil hinfix
    exact absurd this (by simp [str, utf8Char])
  have hres : (buildURL L c rt targetURL options).1 =
      (if c.UseEdge then c.EdgeURL else c.APIURL) ++ str "/" ++ c.Key ++ str "/" ++
        generateToken L c c.Secret (signedQuery L c targetURL options) ++ str "/" ++ rt ++
        (str "?" ++ signedQuery L c targetURL options) := by
    rw [buildURL_ok L c rt targetURL options hkey hsecret hurl]
    have hne2 : ¬ toQueryString L c
        (some (mapSet (copyOptions options) (str "url") (Value.string targetURL))) = [] := hne
    simp only [signedURL, signedQuery, hne2, if_false]
  refine ⟨hne, hmem, hinfix, hres, ?_, ?_⟩
  · rw [hres]
    have h63 : (63 : Byte) ∈ str "?" := by decide
    exact List.mem_append_right _ (List.mem_append_left _ h63)
  · rw [hres]
    intro heq
    have hlen := congrArg List.length heq
    simp only [List.length_append] at hlen
    have hq : (str "?").length = 1 := by decide
    omega

theorem C18_signed_query_never_empty_witness :
    (buildURL sampleStdlib (New (str "test_key") (str "test_secret") []) RequestTypeImage
        (str "https://example.com") (some [])).2 = none ∧
      signedQuery sampleStdlib (New (str "test_key") (str "test_secret") [])
        (str "https://example.com") (some []) ≠ [] :=
  ⟨by decide,
    (C18_signed_query_never_empty sampleStdlib (New (str "test_key") (str "test_secret") [])
      RequestTypeImage (str "https://example.com") (some []) (by decide)).1⟩

/-- C19. The result of `buildURL` does not depend on a `url` or a `format` entry of
the caller: for a well-formed option map, setting `url` to any value and `format` to
any value leaves the returned pair as it is, and in the map that is serialised the
key `url` holds the target URL argument. -/
theorem C19_url_and_format_entries_ignored (L : Stdlib) (c : Capture)
    (rt targetURL : GoString) (m : OptMap) (u f : Value) (hm : NodupKeys m) :
    buildURL L c rt targetURL (some (mapSet (mapSet m (str "url") u) (str "format") f)) =
      buildURL L c rt targetURL (some m) ∧
    mapLookup
        (mapSet (copyOptions (some (mapSet (mapSet m (str "url") u) (str "format") f)))
          (str "url") (Value.string targetURL)) (str "url") =
      some (Value.string targetURL) := by
  have hm2 : NodupKeys (mapSet (mapSet m (str "url") u) (str "format") f) :=
    nodupKeys_mapSet (nodupKeys_mapSet hm _ _) _ _
  have hc1 : copyOptions (some m) = m := copyOptions_eq (some m) hm
  have hc2 : copyOptions (some (mapSet (mapSet m (str "url") u) (str "format") f)) =
      mapSet (mapSet m (str "url") u) (str "format") f := copyOptions_eq (some _) hm2
  refine ⟨?_, by rw [mapLookup_mapSet]; simp⟩
  have hq : toQueryString L c (some (mapSet
        (mapSet (mapSet m (str "url") u) (str "format") f) (str "url")
        (Value.string targetURL))) =
      toQueryString L c (some (mapSet m (str "url") (Value.string targetURL))) := by
    refine toQueryString_congr L c (nodupKeys_mapSet hm2 _ _) (nodupKeys_mapSet hm _ _) ?_
    intro k hk
    rw [mapLookup_mapSet, mapLookup_mapSet, mapLookup_mapSet, mapLookup_mapSet]
    by_cases hu : k = str "url"
    · simp [hu]
    · simp [hu, hk]
  by_cases hg : c.Key = [] ∨ c.Secret = []
  · unfold buildURL
    rw [if_pos hg, if_pos hg]
  · by_cases hu : targetURL = []
    · unfold buildURL
      rw [if_neg hg, if_neg hg, if_pos hu, if_pos hu]
    · have hk2 : c.Key ≠ [] ∧ c.Secret ≠ [] := not_or.mp hg
      rw [buildURL_ok L c rt targetURL _ hk2.1 hk2.2 hu,
        buildURL_ok L c rt targetURL _ hk2.1 hk2.2 hu, hc1, hc2]
      unfold signedURL
      rw [hq]

theorem C19_url_and_format_entries_ignored_witness :
    NodupKeys [(str "width", Value.int 1920)] ∧
      buildURL sampleStdlib (New (str "test_key") (str "test_secret") []) RequestTypePDF
          (str "https://example.com")
          (some (mapSet (mapSet [(str "width", Value.int 1920)] (str "url")
            (Value.string (str "https://other.example"))) (str "format")
            (Value.string (str "A4")))) =
        buildURL sampleStdlib (New (str "test_key") (str "test_secret") []) RequestTypePDF
          (str "https://example.com") (some [(str "width", Value.int 1920)]) :=
  ⟨by decide,
    (C19_url_and_format_entries_ignored sampleStdlib
      (New (str "test_key") (str "test_secret") []) RequestTypePDF
      (str "https://example.com") [(str "width", Value.int 1920)]
      (Value.string (str "https://other.example")) (Value.string (str "A4"))
      (by decide)).1⟩

/-- C20, as the code has it. The pairs stand in ascending byte-wise order of their
unescaped keys; when no surviving key holds a byte that escaping rewrites, the
percent-encoded keys as they appear in the output are the keys themselves and so are
in ascending order too. -/
theorem C20_encoded_key_order_amended (L : Stdlib) (m : OptMap)
    (hplain : ∀ k ∈ sortedKeys (buildParams L m), escapeCount k = 0) :
    (sortedKeys (buildParams L m)).Sorted (fun a b => strLess a b = true) ∧
    (sortedKeys (buildParams L m)).map QueryEscape = sortedKeys (buildParams L m) ∧
    ((sortedKeys (buildParams L m)).map QueryEscape).Sorted
      (fun a b => strLess a b = true) := by
  have hs := sortedKeys_strict (buildParams_inv L m).1
  have hid : (sortedKeys (buildParams L m)).map QueryEscape = sortedKeys (buildParams L m) := by
    have : ∀ k ∈ sortedKeys (buildParams L m), QueryEscape k = id k := by
      intro k hk
      unfold QueryEscape
      rw [if_pos (hplain k hk)]
      rfl
    rw [List.map_congr_left this, List.map_id]
  exact ⟨hs, hid, by rw [hid]; exact hs⟩

theorem C20_encoded_key_order_amended_witness :
    (∀ k ∈ sortedKeys (buildParams sampleStdlib
        [(str "width", Value.int 1920), (str "height", Value.int 1080)]),
        escapeCount k = 0) ∧
      ((sortedKeys (buildParams sampleStdlib
        [(str "width", Value.int 1920), (str "height", Value.int 1080)])).map
          QueryEscape).Sorted (fun a b => strLess a b = true) :=
  ⟨by decide,
    (C20_encoded_key_order_amended sampleStdlib
      [(str "width", Value.int 1920), (str "height", Value.int 1080)] (by decide)).2.2⟩

/-- C20 as stated fails for the keys `a b` and `a!`: the unescaped keys are sorted,
`a b` before `a!`, while the encoded keys read `a+b` and then `a%21`, and `a%21` is
the smaller of the two. -/
theorem C20_encoded_key_order_counterexample :
    toQueryString sampleStdlib (New (str "key") (str "secret") [])
        (some [(str "a!", Value.int 2), (str "a b", Value.int 1)]) =
      str "a+b=1&a%21=2" ∧
    (sortedKeys (buildParams sampleStdlib
        [(str "a!", Value.int 2), (str "a b", Value.int 1)])).map QueryEscape =
      [str "a+b", str "a%21"] ∧
    strLess (str "a%21") (str "a+b") = true ∧
    ¬ ((sortedKeys (buildParams sampleStdlib
        [(str "a!", Value.int 2), (str "a b", Value.int 1)])).map QueryEscape).Sorted
      strLe := by
  refine ⟨by decide, by decide, by decide, ?_⟩
  have h : (sortedKeys (buildParams sampleStdlib
      [(str "a!", Value.int 2), (str "a b", Value.int 1)])).map QueryEscape =
      [str "a+b", str "a%21"] := by decide
  rw [h]
  intro hs
  have := List.rel_of_sorted_cons hs (str "a%21") (List.mem_singleton_self _)
  exact absurd this (by decide)


/-! ## Claim on reading the output back -/

/-- C21. The output decodes unambiguously: for a well-formed option map with at least
one surviving entry, splitting the output on `&`, cutting each part at its first `=`
and query-unescaping both sides gives exactly the surviving entries, each as its key
and its canonical string value, in strictly ascending key order, none lost, merged
or added; this holds whatever bytes keys and values contain, since unescaping undoes
escaping on every string and escaped text holds neither `&` nor `=`. -/
theorem C21_output_decodes_unambiguously (L : Stdlib) (c : Capture) (m : OptMap)
    (hm : NodupKeys m) (hsome : ∃ e ∈ m, survives e = true) :
    decodeQuery (toQueryString L c (some m)) =
      some ((sortByKey (m.filter survives)).map (fun e => (e.1, strValue L e.2))) ∧
    (sortByKey (m.filter survives)).Perm (m.filter survives) ∧
    (mapKeys (sortByKey (m.filter survives))).Sorted (fun a b => strLess a b = true) ∧
    (∀ s : GoString, QueryUnescape (QueryEscape s) = some s ∧
      (38 : Byte) ∉ QueryEscape s ∧ (61 : Byte) ∉ QueryEscape s) := by
  refine ⟨?_, sortByKey_perm _, ?_, fun s =>
    ⟨QueryUnescape_QueryEscape s, QueryEscape_no_separator s⟩⟩
  · have hne : (sortByKey (m.filter survives)).map (renderPair L) ≠ [] := by
      obtain ⟨e, he, hs⟩ := hsome
      have hmem : e ∈ sortByKey (m.filter survives) :=
        (sortByKey_perm _).symm.subset (List.mem_filter.mpr ⟨he, hs⟩)
      intro hnil
      have := List.mem_map_of_mem (renderPair L) hmem
      rw [hnil] at this
      cases this
    have hamp : ∀ p ∈ (sortByKey (m.filter survives)).map (renderPair L), (38 : Byte) ∉ p := by
      intro p hp
      obtain ⟨e, _, rfl⟩ := List.mem_map.mp hp
      exact renderPair_no_amp L e
    unfold decodeQuery
    rw [toQueryString_eq L c hm, splitAmp_Join _ hne hamp, decodeParts_map_renderPair]
  · rw [mapKeys_sortByKey, ← mapKeys_paramEntries L m]
    exact sortedKeys_strict (nodupKeys_paramEntries L hm)

theorem C21_output_decodes_unambiguously_witness :
    NodupKeys [(str "q&a", Value.string (str "x=y z+50%")), (str "format", Value.int 1),
        (str "k=", Value.bool false), (str "a b", Value.int 7)] ∧
      decodeQuery (toQueryString sampleStdlib (New (str "key") (str "secret") [])
          (some [(str "q&a", Value.string (str "x=y z+50%")), (str "format", Value.int 1),
            (str "k=", Value.bool false), (str "a b", Value.int 7)])) =
        some [(str "a b", str "7"), (str "k=", str "false"), (str "q&a", str "x=y z+50%")] :=
  ⟨by decide,
    (C21_output_decodes_unambiguously sampleStdlib (New (str "key") (str "secret") [])
      [(str "q&a", Value.string (str "x=y z+50%")), (str "format", Value.int 1),
        (str "k=", Value.bool false), (str "a b", Value.int 7)]
      (by decide) ⟨(str "a b", Value.int 7), by decide, by decide⟩).1.trans (by decide)⟩


end CaptureGo
